import Mathlib

/-!
# SVGNotesLib — formal model and verification

Shallow embedding of the SVGNotesLib core (`src/colors.rs`, `src/lib.rs`,
`src/elements/{mod,line,polygon}.rs`): the RGBA color codec, the four shape
variants with their attribute decode/encode logic, element dispatch and
document assembly, and the regular-polygon vertex derivation.

Modelling conventions:
* Rust strings are `List Char` (the source is exercised on ASCII data; byte
  indexing and char indexing agree there).
* Rust `u8` values are `ℕ` with explicit `< 256` bounds where relevant.
* Rust `f32` values are modelled as `ℚ`.  Where the source performs f32
  arithmetic whose rounding is observable (the color opacity pipeline), the
  IEEE-754 binary32 round-to-nearest-even step is modelled explicitly and
  executably (`roundF32`).  Where the source only transports values through
  decimal text, parsing is modelled exactly over `ℚ`.
* Fallible Rust code (`Result`) becomes `Except`.
-/

deriving instance DecidableEq for Except

/-! ## Characters and digits -/

/-- Value of a hexadecimal digit character (either case), `none` otherwise. -/
def hexVal? (c : Char) : Option ℕ :=
  if '0' ≤ c ∧ c ≤ '9' then some (c.toNat - 48)
  else if 'a' ≤ c ∧ c ≤ 'f' then some (c.toNat - 87)
  else if 'A' ≤ c ∧ c ≤ 'F' then some (c.toNat - 55)
  else none

def isHexDigit (c : Char) : Bool := (hexVal? c).isSome

/-- Uppercase hexadecimal digit character for `n < 16` (junk above). -/
def hexChar (n : ℕ) : Char :=
  if n < 10 then Char.ofNat (48 + n) else Char.ofNat (55 + n)

/-- The two-digit uppercase hex rendering of a byte, as printed by the
source's `format!("{:02X}", byte)`. -/
def toHex2 (n : ℕ) : List Char := [hexChar (n / 16), hexChar (n % 16)]

/-- Modelled from the Rust standard library: `u8::from_str_radix(s, 16)`
applied to a two-character slice.  Both characters hex digits, or a leading
`'+'` sign followed by one hex digit (`from_str_radix` accepts an optional
leading `'+'` for unsigned integer types; `'-'` is not a sign there). -/
def parseHexByte (c₁ c₂ : Char) : Option ℕ :=
  match hexVal? c₁, hexVal? c₂ with
  | some a, some b => some (16 * a + b)
  | none, some b => if c₁ = '+' then some b else none
  | _, none => none

/-! ## Color codec (`src/colors.rs`) -/

structure Color where
  r : ℕ
  g : ℕ
  b : ℕ
  a : ℕ
deriving DecidableEq, Repr

def Color.Valid (c : Color) : Prop :=
  c.r < 256 ∧ c.g < 256 ∧ c.b < 256 ∧ c.a < 256

instance (c : Color) : Decidable c.Valid := by unfold Color.Valid; infer_instance

/-- `Color::from_str`, by recursion on the input length exactly as the
source's `match s.len()`:  length 4 appends `'F'`; length 5 doubles every
character after the first onto a fresh `"#"`; length 7 appends `"FF"`;
length 9 parses the four byte pairs at positions 1-8 (the character at
position 0 is never inspected); anything else errors.  The source recursion
has depth at most 3, here made structural by a fuel argument. -/
def Color.fromStrFuel : ℕ → List Char → Except Unit Color
  | 0, _ => .error ()
  | fuel + 1, s =>
    match s.length with
    | 4 => Color.fromStrFuel fuel (s ++ ['F'])
    | 5 => Color.fromStrFuel fuel ('#' :: (s.drop 1).flatMap (fun c => [c, c]))
    | 7 => Color.fromStrFuel fuel (s ++ ['F', 'F'])
    | 9 =>
      match parseHexByte (s.getD 1 ' ') (s.getD 2 ' '),
            parseHexByte (s.getD 3 ' ') (s.getD 4 ' '),
            parseHexByte (s.getD 5 ' ') (s.getD 6 ' '),
            parseHexByte (s.getD 7 ' ') (s.getD 8 ' ') with
      | some r, some g, some b, some a => .ok ⟨r, g, b, a⟩
      | _, _, _, _ => .error ()
    | _ => .error ()

def Color.fromStr (s : List Char) : Except Unit Color := Color.fromStrFuel 3 s

/-- `Color`'s `Display` impl: `#RRGGBBAA`, uppercase. -/
def Color.toText (c : Color) : List Char :=
  '#' :: (toHex2 c.r ++ toHex2 c.g ++ toHex2 c.b ++ toHex2 c.a)

/-- `Color::to_string_na`: `#RRGGBB`, alpha dropped. -/
def Color.toTextNa (c : Color) : List Char :=
  '#' :: (toHex2 c.r ++ toHex2 c.g ++ toHex2 c.b)

/-! ### Color codec lemmas -/

theorem hexVal_hexChar : ∀ d : ℕ, d < 16 → hexVal? (hexChar d) = some d := by decide

theorem parseHexByte_toHex2 (n : ℕ) (h : n < 256) :
    parseHexByte (hexChar (n / 16)) (hexChar (n % 16)) = some n := by
  have h1 : n / 16 < 16 := Nat.div_lt_of_lt_mul (by omega)
  have h2 : n % 16 < 16 := Nat.mod_lt _ (by omega)
  rw [parseHexByte, hexVal_hexChar _ h1, hexVal_hexChar _ h2]
  simp only
  congr 1
  omega

/-- Characters of the uppercase-hex canonical form. -/
def isUpperHexDigit (c : Char) : Bool :=
  ('0' ≤ c && c ≤ '9') || ('A' ≤ c && c ≤ 'F')

theorem isUpperHexDigit_hexChar : ∀ d : ℕ, d < 16 → isUpperHexDigit (hexChar d) = true := by
  decide

/-- C2 helper: round trip of the canonical 9-character encoding. -/
theorem color_fromStr_toText (c : Color) (h : c.Valid) :
    Color.fromStr c.toText = .ok c := by
  obtain ⟨hr, hg, hb, ha⟩ := h
  show Color.fromStrFuel 3 c.toText = .ok c
  rw [Color.toText, toHex2, toHex2, toHex2, toHex2]
  rw [Color.fromStrFuel]
  simp only [List.cons_append, List.nil_append, List.length_cons, List.length_nil,
    List.getD_cons_succ, List.getD_cons_zero]
  rw [parseHexByte_toHex2 _ hr, parseHexByte_toHex2 _ hg,
      parseHexByte_toHex2 _ hb, parseHexByte_toHex2 _ ha]

/-- C2: for every 8-bit color, parsing the canonical encoding returns exactly
the color, and the encoding is the 8-hex-digit uppercase form prefixed `#`. -/
theorem color_roundtrip (c : Color) (h : c.Valid) :
    Color.fromStr c.toText = .ok c ∧
    c.toText.length = 9 ∧
    c.toText.getD 0 ' ' = '#' ∧
    ∀ ch ∈ c.toText.drop 1, isUpperHexDigit ch = true := by
  obtain ⟨hr, hg, hb, ha⟩ := h
  refine ⟨color_fromStr_toText c ⟨hr, hg, hb, ha⟩, by simp [Color.toText, toHex2], rfl, ?_⟩
  have h16a : c.r / 16 < 16 := Nat.div_lt_of_lt_mul (by omega)
  have h16b : c.g / 16 < 16 := Nat.div_lt_of_lt_mul (by omega)
  have h16c : c.b / 16 < 16 := Nat.div_lt_of_lt_mul (by omega)
  have h16d : c.a / 16 < 16 := Nat.div_lt_of_lt_mul (by omega)
  simp only [Color.toText, toHex2, List.drop_succ_cons, List.drop_zero, List.cons_append,
    List.nil_append, List.mem_cons, List.not_mem_nil, or_false]
  rintro ch (rfl | rfl | rfl | rfl | rfl | rfl | rfl | rfl) <;>
    exact isUpperHexDigit_hexChar _ (by first
      | assumption
      | exact Nat.mod_lt _ (by omega))

/-- C2 witness. -/
theorem color_roundtrip_witness :
    (Color.mk 0x12 0x0F 0xF0 0xAA).Valid ∧
    Color.fromStr (Color.mk 0x12 0x0F 0xF0 0xAA).toText = .ok (Color.mk 0x12 0x0F 0xF0 0xAA) :=
  ⟨by decide, (color_roundtrip _ (by decide)).1⟩

/-! ### Normalization structure of `Color::from_str` (C3, C4) -/

/-- The terminal (length-9) arm of `Color::from_str`. -/
def colorParse9 (s : List Char) : Except Unit Color :=
  match parseHexByte (s.getD 1 ' ') (s.getD 2 ' '),
        parseHexByte (s.getD 3 ' ') (s.getD 4 ' '),
        parseHexByte (s.getD 5 ' ') (s.getD 6 ' '),
        parseHexByte (s.getD 7 ' ') (s.getD 8 ' ') with
  | some r, some g, some b, some a => .ok ⟨r, g, b, a⟩
  | _, _, _, _ => .error ()

theorem dbl_length (t : List Char) : (t.flatMap fun c => [c, c]).length = 2 * t.length := by
  induction t with
  | nil => rfl
  | cons c t ih =>
      rw [List.flatMap_cons, List.length_append, ih]
      simp only [List.length_cons, List.length_nil]
      omega

theorem fromStrFuel_len9 (f : ℕ) (s : List Char) (h : s.length = 9) :
    Color.fromStrFuel (f + 1) s = colorParse9 s := by
  rw [Color.fromStrFuel, h]
  rfl

theorem fromStrFuel_len7 (f : ℕ) (s : List Char) (h : s.length = 7) :
    Color.fromStrFuel (f + 2) s = colorParse9 (s ++ ['F', 'F']) := by
  have : Color.fromStrFuel (f + 2) s = Color.fromStrFuel (f + 1) (s ++ ['F', 'F']) := by
    rw [Color.fromStrFuel, h]
  rw [this, fromStrFuel_len9 _ _ (by simp [h])]

theorem fromStrFuel_len5 (f : ℕ) (s : List Char) (h : s.length = 5) :
    Color.fromStrFuel (f + 2) s =
      colorParse9 ('#' :: (s.drop 1).flatMap (fun c => [c, c])) := by
  have : Color.fromStrFuel (f + 2) s =
      Color.fromStrFuel (f + 1) ('#' :: (s.drop 1).flatMap (fun c => [c, c])) := by
    rw [Color.fromStrFuel, h]
  rw [this, fromStrFuel_len9 f _ (by rw [List.length_cons, dbl_length, List.length_drop, h])]

theorem fromStrFuel_len4 (f : ℕ) (s : List Char) (h : s.length = 4) :
    Color.fromStrFuel (f + 2) s = Color.fromStrFuel (f + 1) (s ++ ['F']) := by
  rw [Color.fromStrFuel, h]

/-- C3: the short-form normalization rules of `Color::from_str`, plus the
concrete values the spec lists.  Lengths count the whole input (`#` plus 3,
4 or 6 digits). -/
theorem color_parse_normalization :
    (∀ s : List Char, s.length = 4 → Color.fromStr s = Color.fromStr (s ++ ['F'])) ∧
    (∀ s : List Char, s.length = 5 →
      Color.fromStr s = Color.fromStr ('#' :: (s.drop 1).flatMap (fun c => [c, c]))) ∧
    (∀ s : List Char, s.length = 7 → Color.fromStr s = Color.fromStr (s ++ ['F', 'F'])) ∧
    Color.fromStr "#000".toList = .ok ⟨0, 0, 0, 255⟩ ∧
    Color.fromStr "#0000".toList = .ok ⟨0, 0, 0, 0⟩ ∧
    Color.fromStr "#400".toList = .ok ⟨0x44, 0, 0, 255⟩ ∧
    Color.fromStr "#16813554".toList = .ok ⟨0x16, 0x81, 0x35, 0x54⟩ := by
  refine ⟨?_, ?_, ?_, by decide, by decide, by decide, by decide⟩
  · intro s h
    show Color.fromStrFuel 3 s = Color.fromStrFuel 3 (s ++ ['F'])
    rw [fromStrFuel_len4 1 s h, fromStrFuel_len5 1 (s ++ ['F']) (by simp [h]),
        fromStrFuel_len5 0 (s ++ ['F']) (by simp [h])]
  · intro s h
    show Color.fromStrFuel 3 s = Color.fromStrFuel 3 ('#' :: (s.drop 1).flatMap (fun c => [c, c]))
    rw [fromStrFuel_len5 1 s h,
      fromStrFuel_len9 2 _ (by rw [List.length_cons, dbl_length, List.length_drop, h])]
  · intro s h
    show Color.fromStrFuel 3 s = Color.fromStrFuel 3 (s ++ ['F', 'F'])
    rw [fromStrFuel_len7 1 s h, fromStrFuel_len9 2 _ (by simp [h])]

/-- C3 witness. -/
theorem color_parse_normalization_witness :
    ("#000".toList.length = 4 ∧
      Color.fromStr "#000".toList = Color.fromStr ("#000".toList ++ ['F'])) ∧
    Color.fromStr "#000".toList = .ok ⟨0, 0, 0, 255⟩ :=
  ⟨⟨by decide, color_parse_normalization.1 "#000".toList (by decide)⟩,
    color_parse_normalization.2.2.2.1⟩

/-! ### Success domain of `Color::from_str` (C4) -/

def hexByteOk (c₁ c₂ : Char) : Bool := (parseHexByte c₁ c₂).isSome

/-- The exact success condition of `Color::from_str`: total input length 4, 5,
7 or 9; for the short forms every character after the first is a hex digit;
for the long forms every two-character group after the first character is
accepted by `u8::from_str_radix` (which also tolerates a leading `'+'`).
The first character is never constrained. -/
def colorTextOk (s : List Char) : Bool :=
  match s.length with
  | 4 => (s.drop 1).all isHexDigit
  | 5 => (s.drop 1).all isHexDigit
  | 7 => hexByteOk (s.getD 1 ' ') (s.getD 2 ' ') && hexByteOk (s.getD 3 ' ') (s.getD 4 ' ') &&
      hexByteOk (s.getD 5 ' ') (s.getD 6 ' ')
  | 9 => hexByteOk (s.getD 1 ' ') (s.getD 2 ' ') && hexByteOk (s.getD 3 ' ') (s.getD 4 ' ') &&
      hexByteOk (s.getD 5 ' ') (s.getD 6 ' ') && hexByteOk (s.getD 7 ' ') (s.getD 8 ' ')
  | _ => false

theorem colorParse9_ok_iff (s : List Char) :
    (∃ c, colorParse9 s = .ok c) ↔
      (hexByteOk (s.getD 1 ' ') (s.getD 2 ' ') && hexByteOk (s.getD 3 ' ') (s.getD 4 ' ') &&
        hexByteOk (s.getD 5 ' ') (s.getD 6 ' ') &&
        hexByteOk (s.getD 7 ' ') (s.getD 8 ' ')) = true := by
  rw [colorParse9]
  unfold hexByteOk
  cases h1 : parseHexByte (s.getD 1 ' ') (s.getD 2 ' ') <;>
    cases h2 : parseHexByte (s.getD 3 ' ') (s.getD 4 ' ') <;>
      cases h3 : parseHexByte (s.getD 5 ' ') (s.getD 6 ' ') <;>
        cases h4 : parseHexByte (s.getD 7 ' ') (s.getD 8 ' ') <;> simp

theorem hexByteOk_same (c : Char) : hexByteOk c c = isHexDigit c := by
  unfold hexByteOk parseHexByte isHexDigit
  cases h : hexVal? c <;> simp [h]

theorem list_len4 {l : List Char} (h : l.length = 4) : ∃ a b c d, l = [a, b, c, d] := by
  cases l with
  | nil => simp at h
  | cons a t =>
    have h3 : t.length = 3 := by simp only [List.length_cons] at h; omega
    obtain ⟨b, c, d, rfl⟩ := List.length_eq_three.mp h3
    exact ⟨a, b, c, d, rfl⟩

theorem list_len5 {l : List Char} (h : l.length = 5) : ∃ a b c d e, l = [a, b, c, d, e] := by
  cases l with
  | nil => simp at h
  | cons a t =>
    have h4 : t.length = 4 := by simp only [List.length_cons] at h; omega
    obtain ⟨b, c, d, e, rfl⟩ := list_len4 h4
    exact ⟨a, b, c, d, e, rfl⟩

/-- C4 (amended): `Color::from_str` succeeds exactly on `colorTextOk` inputs
(the leading character is not validated), and on every other input it
returns the bare error value, carrying no partial color. -/
theorem color_parse_domain (s : List Char) :
    ((∃ c, Color.fromStr s = .ok c) ↔ colorTextOk s = true) ∧
    (colorTextOk s = false → Color.fromStr s = .error ()) := by
  have main : (∃ c, Color.fromStr s = .ok c) ↔ colorTextOk s = true := by
    show (∃ c, Color.fromStrFuel 3 s = .ok c) ↔ colorTextOk s = true
    rcases hl : s.length with _ | _ | _ | _ | _ | _ | _ | _ | _ | _ | n
    case zero =>
      rw [colorTextOk, hl, Color.fromStrFuel, hl]
      simp
    case succ.succ.succ.succ.zero =>
      obtain ⟨a, b, c, d, rfl⟩ := list_len4 (show s.length = 4 by omega)
      rw [colorTextOk]
      rw [fromStrFuel_len4 1 _ (by rfl), fromStrFuel_len5 0 _ (by rfl), colorParse9_ok_iff]
      simp [hexByteOk_same, show isHexDigit 'F' = true from by decide, and_assoc]
    case succ.succ.succ.succ.succ.zero =>
      obtain ⟨a, b, c, d, e, rfl⟩ := list_len5 (show s.length = 5 by omega)
      rw [colorTextOk]
      rw [fromStrFuel_len5 1 _ (by rfl), colorParse9_ok_iff]
      simp [hexByteOk_same, and_assoc]
    case succ.succ.succ.succ.succ.succ.succ.zero =>
      have h7 : s.length = 7 := by omega
      rw [colorTextOk, h7, fromStrFuel_len7 1 _ h7, colorParse9_ok_iff]
      have g1 := List.getD_append s ['F', 'F'] ' ' 1 (by omega)
      have g2 := List.getD_append s ['F', 'F'] ' ' 2 (by omega)
      have g3 := List.getD_append s ['F', 'F'] ' ' 3 (by omega)
      have g4 := List.getD_append s ['F', 'F'] ' ' 4 (by omega)
      have g5 := List.getD_append s ['F', 'F'] ' ' 5 (by omega)
      have g6 := List.getD_append s ['F', 'F'] ' ' 6 (by omega)
      have g7 : (s ++ ['F', 'F']).getD 7 ' ' = 'F' := by
        rw [List.getD_append_right s ['F', 'F'] ' ' 7 (by omega), h7]
        decide
      have g8 : (s ++ ['F', 'F']).getD 8 ' ' = 'F' := by
        rw [List.getD_append_right s ['F', 'F'] ' ' 8 (by omega), h7]
        decide
      rw [g1, g2, g3, g4, g5, g6, g7, g8,
        show hexByteOk 'F' 'F' = true from by decide, Bool.and_true]
    case succ.succ.succ.succ.succ.succ.succ.succ.succ.zero =>
      have h9 : s.length = 9 := by omega
      rw [colorTextOk, h9, fromStrFuel_len9 2 _ h9, colorParse9_ok_iff]
    all_goals
      rw [colorTextOk, hl, Color.fromStrFuel, hl]
      simp
  refine ⟨main, fun hbad => ?_⟩
  rcases he : Color.fromStr s with u | c
  · cases u; rfl
  · exact absurd (main.mp ⟨c, he⟩) (by simp [hbad])

/-- C4 witness. -/
theorem color_parse_domain_witness :
    colorTextOk "#12345678".toList = true ∧
    (∃ c, Color.fromStr "#12345678".toList = .ok c) :=
  ⟨by decide, (color_parse_domain "#12345678".toList).1.mpr (by decide)⟩

/-- C4 counterexample: an input without the leading `'#'` that nevertheless
parses successfully (the claim requires an error for every input lacking the
leading `'#'`). -/
theorem color_parse_domain_counterexample :
    "016813554".toList.getD 0 ' ' ≠ '#' ∧
    Color.fromStr "016813554".toList = .ok ⟨0x16, 0x81, 0x35, 0x54⟩ := by
  exact ⟨by decide, by decide⟩

/-! ## Exact rational arithmetic helpers

Core `Rat` arithmetic (`Rat.add`, `Rat.mul`, …) does not reduce inside the
kernel, so executable definitions below use `Rat.divInt`/`mkRat` directly;
these bridge lemmas connect them to the ordinary field operations for use in
statements and proofs. -/

def qmul (a b : ℚ) : ℚ := Rat.divInt (a.num * b.num) (a.den * b.den)

theorem qmul_eq (a b : ℚ) : qmul a b = a * b := by
  rw [qmul, Rat.mul_def, Rat.normalize_eq_mkRat, Rat.mkRat_eq_divInt]
  norm_cast

/-- `2 ^ k` as a rational, for `k : ℤ`, built so that it kernel-reduces. -/
def qpow2 (k : ℤ) : ℚ :=
  if 0 ≤ k then Rat.divInt (2 ^ k.toNat) 1 else Rat.divInt 1 (2 ^ (-k).toNat)

/-- `x * 2 ^ k` without `Rat.mul`. -/
def qscalePow2 (x : ℚ) (k : ℤ) : ℚ :=
  if 0 ≤ k then Rat.divInt (x.num * 2 ^ k.toNat) x.den
  else Rat.divInt x.num (x.den * 2 ^ (-k).toNat)

/-! ## IEEE-754 binary32 rounding model

Modelled from the Rust/IEEE semantics of `f32` arithmetic: every primitive
f32 operation produces the correctly rounded (round-to-nearest, ties-to-even)
24-bit-significand value of the exact result.  The model covers the normal
range (no overflow to infinity, no subnormal flushing, no NaN), which is the
range exercised by the color opacity pipeline it is used for. -/

/-- `⌊log₂ n⌋` by structural recursion (fuel ≥ n suffices). -/
def log2Fuel : ℕ → ℕ → ℕ
  | 0, _ => 0
  | fuel + 1, n => if n ≤ 1 then 0 else 1 + log2Fuel fuel (n / 2)

/-- `e` with `2 ^ e ≤ x < 2 ^ (e + 1)`, for positive `x`. -/
def ratLog2 (x : ℚ) : ℤ :=
  let g : ℤ := (log2Fuel x.num.natAbs x.num.natAbs : ℤ) - (log2Fuel x.den x.den : ℤ)
  if x < qpow2 g then g - 1 else g

/-- Round a rational to an integer, nearest, ties to even. -/
def rne (x : ℚ) : ℤ :=
  let f := ⌊x⌋
  let t := 2 * (x.num - f * (x.den : ℤ))
  if t < (x.den : ℤ) then f
  else if (x.den : ℤ) < t then f + 1
  else if f % 2 = 0 then f else f + 1

/-- Round-to-nearest-even at 24 significand bits: the binary32 rounding of an
exact rational result (normal range). -/
def roundF32 (q : ℚ) : ℚ :=
  if q = 0 then 0
  else
    let x := |q|
    let e := ratLog2 x
    let m := rne (qscalePow2 x (23 - e))
    let mag := qscalePow2 (Rat.divInt m 1) (e - 23)
    if q < 0 then -mag else mag

/-! ## Color opacity pipeline (`src/colors.rs`: `f2u`, `u2f`,
`with_opacity`, `opacity`) -/

/-- `f2u`: `(255.0 * f) as u8` — f32 multiply, then Rust's saturating
float-to-integer cast (truncation toward zero, clamped to `0..=255`). -/
def f2u (f : ℚ) : ℕ := min 255 (Int.toNat ⌊roundF32 (qmul 255 f)⌋)

/-- `u2f`: `u as f32 / 255.0` — an exact quotient rounded once to f32. -/
def u2f (u : ℕ) : ℚ := roundF32 (mkRat u 255)

def Color.with_opacity (c : Color) (opacity : ℚ) : Color := { c with a := f2u opacity }

def Color.opacity (c : Color) : ℚ := u2f c.a

set_option maxRecDepth 4000 in
/-- The alpha byte survives the opacity round trip for every byte value:
`(255.0 * (a as f32 / 255.0)) as u8 == a`. -/
theorem f2u_u2f : ∀ a : ℕ, a < 256 → f2u (u2f a) = a := by decide

/-- C5 (amended): `with_opacity` sets alpha to the truncation toward zero of
the f32 product `255 × f` (not its rounding), leaving `r`, `g`, `b`
unchanged; and although `opacity` returns the binary32 rounding of
`alpha / 255` rather than the exact quotient, `with_opacity ∘ opacity`
restores the alpha byte exactly. -/
theorem with_opacity_spec :
    (∀ (c : Color) (f : ℚ), 0 ≤ f → f ≤ 1 → roundF32 ((255 : ℚ) * f) = (255 : ℚ) * f →
      c.with_opacity f = { c with a := Int.toNat ⌊(255 : ℚ) * f⌋ }) ∧
    (∀ c : Color, c.a < 256 → c.with_opacity c.opacity = c) := by
  constructor
  · intro c f h0 h1 hexact
    have hle : (255 : ℚ) * f ≤ 255 := by nlinarith
    have hfl : ⌊(255 : ℚ) * f⌋ ≤ 255 := by
      have := Int.floor_le_floor hle
      simpa using this
    have : f2u f = Int.toNat ⌊(255 : ℚ) * f⌋ := by
      rw [f2u, qmul_eq, hexact]
      omega
    rw [Color.with_opacity, this]
  · intro c hc
    have : f2u (u2f c.a) = c.a := f2u_u2f c.a hc
    rw [Color.with_opacity, Color.opacity, this]

/-- C5 witness. -/
theorem with_opacity_spec_witness :
    (Color.mk 1 2 3 4).with_opacity (mkRat 1 4) =
      { Color.mk 1 2 3 4 with a := Int.toNat ⌊(255 : ℚ) * mkRat 1 4⌋ } ∧
    (Color.mk 0 0 0 77).with_opacity (Color.mk 0 0 0 77).opacity = Color.mk 0 0 0 77 := by
  have hb : (255 : ℚ) * mkRat 1 4 = mkRat 255 4 := by
    rw [← qmul_eq]
    decide
  refine ⟨with_opacity_spec.1 _ _ (by decide) (by decide) ?_, with_opacity_spec.2 _ (by decide)⟩
  rw [hb]
  decide

/-- C5 counterexample: at `f = 1/2` the code yields alpha `127` (truncation of
`127.5`) while the claim's `round(255 × f)` is `128`; and `opacity` on alpha
`1` is the f32 value nearest `1/255`, not `1/255` itself. -/
theorem with_opacity_counterexample :
    ((Color.mk 0 0 0 255).with_opacity (mkRat 1 2)).a = 127 ∧
    round ((255 : ℚ) * mkRat 1 2) = 128 ∧
    (Color.mk 0 0 0 1).opacity ≠ mkRat 1 255 := by
  refine ⟨by decide, ?_, by decide⟩
  have hb : (255 : ℚ) * mkRat 1 2 = mkRat 255 2 := by
    rw [← qmul_eq]
    decide
  have h2 : (mkRat 255 2 : ℚ) = 255 / 2 := by
    rw [Rat.mkRat_eq_div]
    norm_num
  rw [hb, h2, round_eq]
  norm_num

/-! ## Decimal text for numbers

Models of the Rust standard library's integer/float text conversions, at the
level of detail the library observes: `Display` for numbers prints a decimal
form that reparses to the same value; parsing is modelled exactly over `ℚ`
(every finite `f32` is a dyadic rational, so its shortest decimal form is
exact; infinity/NaN literals are outside this finite-value model and are
treated as parse failures). -/

def decVal? (c : Char) : Option ℕ :=
  if 48 ≤ c.toNat ∧ c.toNat ≤ 57 then some (c.toNat - 48) else none

def isDecDigit (c : Char) : Bool := (decVal? c).isSome

def decDigitVal (c : Char) : ℕ := (decVal? c).getD 0

/-- Big-endian value of a digit string. -/
def digitsVal (cs : List Char) : ℕ := cs.foldl (fun a c => 10 * a + decDigitVal c) 0

/-- Little-endian value of a digit string. -/
def valRev : List Char → ℕ
  | [] => 0
  | c :: cs => decDigitVal c + 10 * valRev cs

/-- Little-endian decimal digits of `n` (fuel-structured; `fuel > n` suffices). -/
def toDecAux : ℕ → ℕ → List Char
  | 0, _ => []
  | fuel + 1, n =>
    if n < 10 then [Char.ofNat (48 + n)]
    else Char.ofNat (48 + n % 10) :: toDecAux fuel (n / 10)

/-- Decimal rendering of a natural number, as printed by `Display`. -/
def natToDec (n : ℕ) : List Char := (toDecAux (n + 1) n).reverse

theorem digitsVal_reverse (l : List Char) : digitsVal l.reverse = valRev l := by
  induction l with
  | nil => rfl
  | cons c cs ih =>
    rw [valRev, List.reverse_cons, digitsVal, List.foldl_append, ← digitsVal, ih]
    simp only [List.foldl_cons, List.foldl_nil]
    omega

theorem decVal_ofNat : ∀ d : ℕ, d < 10 → decVal? (Char.ofNat (48 + d)) = some d := by decide

theorem toDecAux_spec : ∀ fuel n, n < fuel →
    valRev (toDecAux fuel n) = n ∧ (toDecAux fuel n).all isDecDigit = true ∧
      toDecAux fuel n ≠ [] := by
  intro fuel
  induction fuel with
  | zero => omega
  | succ f ih =>
    intro n hn
    rw [toDecAux]
    by_cases h10 : n < 10
    · rw [if_pos h10]
      refine ⟨?_, ?_, by simp⟩
      · rw [valRev, valRev, decDigitVal, decVal_ofNat n h10]
        rfl
      · simp [isDecDigit, decVal_ofNat n h10]
    · rw [if_neg h10]
      have hrec := ih (n / 10) (by omega)
      refine ⟨?_, ?_, by simp⟩
      · rw [valRev, hrec.1, decDigitVal, decVal_ofNat (n % 10) (by omega)]
        simp only [Option.getD_some]
        omega
      · simp only [List.all_cons, Bool.and_eq_true, hrec.2.1, and_true]
        simp [isDecDigit, decVal_ofNat (n % 10) (by omega)]

theorem natToDec_spec (n : ℕ) :
    digitsVal (natToDec n) = n ∧ (natToDec n).all isDecDigit = true ∧ natToDec n ≠ [] := by
  obtain ⟨h1, h2, h3⟩ := toDecAux_spec (n + 1) n (by omega)
  refine ⟨by rw [natToDec, digitsVal_reverse, h1], ?_, by simp [natToDec, h3]⟩
  simpa [natToDec] using h2

theorem mem_natToDec_digit {n : ℕ} {c : Char} (hc : c ∈ natToDec n) : isDecDigit c = true := by
  have := (natToDec_spec n).2.1
  rw [List.all_eq_true] at this
  exact this c hc

/-- Leading `'+'` sign handling of unsigned integer parsing. -/
def stripPlus (s : List Char) : List Char :=
  match s with
  | c :: t => if c = '+' then t else c :: t
  | [] => []

/-- Modelled from the Rust standard library: `u8::from_str` — an optional
leading `'+'`, then one or more decimal digits, value at most 255. -/
def parseU8 (s : List Char) : Option ℕ :=
  let ds := stripPlus s
  if ds ≠ [] ∧ ds.all isDecDigit = true ∧ digitsVal ds ≤ 255 then some (digitsVal ds)
  else none

theorem parseU8_natToDec (n : ℕ) (h : n ≤ 255) : parseU8 (natToDec n) = some n := by
  obtain ⟨h1, h2, h3⟩ := natToDec_spec n
  have hstrip : stripPlus (natToDec n) = natToDec n := by
    rcases hd : natToDec n with _ | ⟨c, t⟩
    · rfl
    · have hc : isDecDigit c = true := mem_natToDec_digit (by rw [hd]; exact List.mem_cons_self c t)
      have : c ≠ '+' := by
        rintro rfl
        exact absurd hc (by decide)
      rw [stripPlus, if_neg this]
  rw [parseU8, hstrip, if_pos ⟨h3, h2, by omega⟩, h1]

/-! ### Float text -/

/-- Split at the first character satisfying `p`: the prefix before it and,
when found, the remainder after it. -/
def splitAtFirst (p : Char → Bool) : List Char → List Char × Option (List Char)
  | [] => ([], none)
  | c :: t =>
    if p c then ([], some t)
    else
      let r := splitAtFirst p t
      (c :: r.1, r.2)

/-- Optional leading sign of a number literal. -/
def signSplit : List Char → ℤ × List Char
  | [] => (1, [])
  | c :: t => if c = '+' then (1, t) else if c = '-' then (-1, t) else (1, c :: t)

/-- Signed decimal exponent: optional sign, then one or more digits. -/
def parseExp (s : List Char) : Option ℤ :=
  let r := signSplit s
  if r.2 ≠ [] ∧ r.2.all isDecDigit = true then some (r.1 * digitsVal r.2) else none

/-- Exact rational value of a decimal literal
`sgn (i . f) × 10 ^ e` with `flen` fraction digits. -/
def qOfParts (sgn : ℤ) (i f flen : ℕ) (e : ℤ) : ℚ :=
  let m : ℤ := sgn * ((i * 10 ^ flen + f : ℕ) : ℤ)
  if 0 ≤ e then Rat.divInt (m * 10 ^ e.toNat) ((10 ^ flen : ℕ) : ℤ)
  else Rat.divInt m ((10 ^ (flen + (-e).toNat) : ℕ) : ℤ)

/-- Modelled from the Rust standard library: `f32::from_str`, restricted to
finite decimal literals — `[sign] digits [. digits] [(e|E) [sign] digits]`
with at least one mantissa digit — evaluated exactly over `ℚ` (the final
rounding to binary32 is the identity on the representable values this
development feeds it; `inf`/`NaN` literals are outside the model and fail). -/
def parseFloatQ (s : List Char) : Option ℚ :=
  let sg := signSplit s
  let me := splitAtFirst (fun c => c = 'e' || c = 'E') sg.2
  let ifr := splitAtFirst (fun c => c = '.') me.1
  let ipart := ifr.1
  let fpart := (ifr.2).getD []
  if ipart ++ fpart = [] then none
  else if ¬(ipart.all isDecDigit = true ∧ fpart.all isDecDigit = true) then none
  else
    match me.2 with
    | none => some (qOfParts sg.1 (digitsVal ipart) (digitsVal fpart) fpart.length 0)
    | some es =>
      match parseExp es with
      | none => none
      | some e => some (qOfParts sg.1 (digitsVal ipart) (digitsVal fpart) fpart.length e)

/-- Scaling factor for the modelled decimal formatter. -/
def decScale : ℕ := 10 ^ 150

/-- Rationals whose denominator divides `10 ^ 150`: exactly those with a
finite decimal form of at most 150 fractional digits.  Every binary32 value
in the range this library manipulates is of this shape. -/
def DecRepQ (q : ℚ) : Prop := q.den ∣ decScale

instance (q : ℚ) : Decidable (DecRepQ q) := by unfold DecRepQ; infer_instance

/-- Modelled from the Rust standard library: `Display` for `f32`.  Rust
prints the shortest decimal that reparses to the same value; the model
prints an equivalent exact decimal form (scaled integer and fixed exponent),
which reparses to the same `ℚ` value — the observable contract. -/
def formatQ (q : ℚ) : List Char :=
  (if q < 0 then ['-'] else []) ++
    natToDec (q.num.natAbs * (decScale / q.den)) ++ 'e' :: '-' :: natToDec 150

theorem splitAtFirst_not (p : Char → Bool) (a : List Char) (h : ∀ c ∈ a, p c = false) :
    splitAtFirst p a = (a, none) := by
  induction a with
  | nil => rfl
  | cons c t ih =>
    rw [splitAtFirst, if_neg (by simp [h c (List.mem_cons_self c t)]),
      ih fun x hx => h x (List.mem_cons_of_mem c hx)]

theorem splitAtFirst_found (p : Char → Bool) (a : List Char) (c₀ : Char) (rest : List Char)
    (h : ∀ c ∈ a, p c = false) (hc : p c₀ = true) :
    splitAtFirst p (a ++ c₀ :: rest) = (a, some rest) := by
  induction a with
  | nil => simp [splitAtFirst, hc]
  | cons c t ih =>
    rw [List.cons_append, splitAtFirst, if_neg (by simp [h c (List.mem_cons_self c t)]),
      ih fun x hx => h x (List.mem_cons_of_mem c hx)]


/-- Rust `char::is_ascii_whitespace`: space, tab, newline, form feed, CR. -/
def isWs (c : Char) : Bool :=
  c = ' ' || c = '\t' || c = '\n' || c.toNat = 12 || c = '\r'

theorem decDigit_ne_e {c : Char} (h : isDecDigit c = true) :
    (decide (c = 'e') || decide (c = 'E')) = false := by
  have h1 : c ≠ 'e' := by rintro rfl; exact absurd h (by decide)
  have h2 : c ≠ 'E' := by rintro rfl; exact absurd h (by decide)
  simp [h1, h2]

theorem decDigit_ne_dot {c : Char} (h : isDecDigit c = true) : decide (c = '.') = false := by
  have h1 : c ≠ '.' := by rintro rfl; exact absurd h (by decide)
  simp [h1]

theorem decDigit_ne_comma {c : Char} (h : isDecDigit c = true) : decide (c = ',') = false := by
  have h1 : c ≠ ',' := by rintro rfl; exact absurd h (by decide)
  simp [h1]

theorem decDigit_not_ws {c : Char} (h : isDecDigit c = true) : isWs c = false := by
  have h1 : c ≠ ' ' := by rintro rfl; exact absurd h (by decide)
  have h2 : c ≠ '\t' := by rintro rfl; exact absurd h (by decide)
  have h3 : c ≠ '\n' := by rintro rfl; exact absurd h (by decide)
  have h5 : c ≠ '\r' := by rintro rfl; exact absurd h (by decide)
  have h4 : c.toNat ≠ 12 := by
    intro h12
    rw [isDecDigit, decVal?] at h
    rw [if_neg (by omega)] at h
    exact absurd h (by decide)
  simp [isWs, h1, h2, h3, h4, h5]

theorem decDigit_ne_plus {c : Char} (h : isDecDigit c = true) : c ≠ '+' := by
  rintro rfl; exact absurd h (by decide)

theorem decDigit_ne_minus {c : Char} (h : isDecDigit c = true) : c ≠ '-' := by
  rintro rfl; exact absurd h (by decide)

theorem signSplit_append_digits (l X : List Char) (hne : l ≠ [])
    (hdig : l.all isDecDigit = true) : signSplit (l ++ X) = (1, l ++ X) := by
  rcases l with _ | ⟨c, t⟩
  · exact absurd rfl hne
  · have hc : isDecDigit c = true := by
      rw [List.all_cons, Bool.and_eq_true] at hdig
      exact hdig.1
    rw [List.cons_append, signSplit, if_neg (decDigit_ne_plus hc),
      if_neg (decDigit_ne_minus hc)]

theorem parseExp_neg150 : parseExp ('-' :: natToDec 150) = some (-150) := by
  obtain ⟨hval150, hdig150, hne150⟩ := natToDec_spec 150
  have hsign : signSplit ('-' :: natToDec 150) = (-1, natToDec 150) := by
    rw [signSplit, if_neg (by decide), if_pos rfl]
  rw [parseExp, hsign, if_pos ⟨hne150, hdig150⟩, hval150]
  norm_num

/-- Parsing inverts the modelled `f32` formatter on decimal-representable
rationals. -/
theorem parseFloatQ_formatQ (q : ℚ) (h : DecRepQ q) : parseFloatQ (formatQ q) = some q := by
  obtain ⟨hvalN, hdigN, hneN⟩ := natToDec_spec (q.num.natAbs * (decScale / q.den))
  have hdigN' : ∀ c ∈ natToDec (q.num.natAbs * (decScale / q.den)), isDecDigit c = true :=
    fun c hc => mem_natToDec_digit hc
  have hsplitE : splitAtFirst (fun c => c = 'e' || c = 'E')
      (natToDec (q.num.natAbs * (decScale / q.den)) ++ 'e' :: '-' :: natToDec 150) =
      (natToDec (q.num.natAbs * (decScale / q.den)), some ('-' :: natToDec 150)) :=
    splitAtFirst_found _ _ _ _ (fun c hc => decDigit_ne_e (hdigN' c hc)) (by decide)
  have hsplitDot : splitAtFirst (fun c => c = '.')
      (natToDec (q.num.natAbs * (decScale / q.den))) =
      (natToDec (q.num.natAbs * (decScale / q.den)), none) :=
    splitAtFirst_not _ _ (fun c hc => decDigit_ne_dot (hdigN' c hc))
  have hvalue : qOfParts (if q < 0 then (-1 : ℤ) else 1)
      (q.num.natAbs * (decScale / q.den)) 0 0 (-150) = q := by
    rw [qOfParts, if_neg (by norm_num)]
    have hnum : (if q < 0 then (-1 : ℤ) else 1) *
        ((q.num.natAbs * (decScale / q.den) * 10 ^ 0 + 0 : ℕ) : ℤ) =
        q.num * ((decScale / q.den : ℕ) : ℤ) := by
      have hcast : ((q.num.natAbs * (decScale / q.den) * 10 ^ 0 + 0 : ℕ) : ℤ) =
          (q.num.natAbs : ℤ) * ((decScale / q.den : ℕ) : ℤ) := by
        rw [pow_zero, Nat.mul_one, Nat.add_zero, Nat.cast_mul]
      rw [hcast]
      by_cases hq : q < 0
      · have hqn : q.num ≤ 0 :=
          le_of_not_lt (fun hpos => absurd (Rat.num_nonneg.mp (le_of_lt hpos)) (not_le.mpr hq))
        have h0 : (0 : ℤ) ≤ -q.num := by omega
        have habs : (q.num.natAbs : ℤ) = -q.num := by
          rw [← Int.natAbs_neg, Int.natAbs_of_nonneg h0]
        rw [if_pos hq, habs]
        ring
      · have habs : (q.num.natAbs : ℤ) = q.num :=
          Int.natAbs_of_nonneg (Rat.num_nonneg.mpr (not_lt.mp hq))
        rw [if_neg hq, habs]
        ring
    have hden : ((0 : ℕ) + (-(-150 : ℤ)).toNat) = 150 := rfl
    rw [hnum, hden]
    have hdvd : ((decScale / q.den : ℕ) : ℤ) * (q.den : ℤ) = ((10 ^ 150 : ℕ) : ℤ) := by
      rw [← Nat.cast_mul, Nat.div_mul_cancel h]
      rfl
    conv_rhs => rw [← Rat.num_divInt_den q]
    rw [Rat.divInt_eq_iff (by positivity) (Int.natCast_ne_zero.mpr q.den_nz)]
    rw [mul_assoc, hdvd]
  by_cases hq : q < 0
  · have hform : formatQ q = '-' ::
        (natToDec (q.num.natAbs * (decScale / q.den)) ++ 'e' :: '-' :: natToDec 150) := by
      rw [formatQ, if_pos hq]
      rfl
    have hss : signSplit ('-' ::
        (natToDec (q.num.natAbs * (decScale / q.den)) ++ 'e' :: '-' :: natToDec 150)) =
        (-1, natToDec (q.num.natAbs * (decScale / q.den)) ++ 'e' :: '-' :: natToDec 150) := by
      rw [signSplit, if_neg (by decide), if_pos rfl]
    rw [if_pos hq] at hvalue
    rw [hform, parseFloatQ]
    have hdv0 : digitsVal ([] : List Char) = 0 := rfl
    simp only [hss, hsplitE, hsplitDot, Option.getD_none, List.append_nil, parseExp_neg150,
      hvalN, hdv0, List.length_nil]
    rw [if_neg (by simpa using hneN), if_neg (by simp [hdigN]), hvalue]
  · have hform : formatQ q =
        natToDec (q.num.natAbs * (decScale / q.den)) ++ 'e' :: '-' :: natToDec 150 := by
      rw [formatQ, if_neg hq]
      rfl
    have hss := signSplit_append_digits (natToDec (q.num.natAbs * (decScale / q.den)))
      ('e' :: '-' :: natToDec 150) hneN hdigN
    rw [if_neg hq] at hvalue
    rw [hform, parseFloatQ]
    have hdv0 : digitsVal ([] : List Char) = 0 := rfl
    simp only [hss, hsplitE, hsplitDot, Option.getD_none, List.append_nil, parseExp_neg150,
      hvalN, hdv0, List.length_nil]
    rw [if_neg (by simpa using hneN), if_neg (by simp [hdigN]), hvalue]

/-! ## String splitting (models of `str::split`, `str::split_once`,
`str::split_ascii_whitespace`) -/

/-- Rust `str::split(sep)`: `n` separators yield `n + 1` (possibly empty)
pieces. -/
def splitSep (sep : Char) : List Char → List (List Char)
  | [] => [[]]
  | c :: t =>
    if c = sep then [] :: splitSep sep t
    else
      match splitSep sep t with
      | [] => [[c]]
      | p :: ps => (c :: p) :: ps

/-- Rust `str::split_once(sep)`: the pieces before and after the first
separator, `none` when absent. -/
def splitOnce (sep : Char) : List Char → Option (List Char × List Char)
  | [] => none
  | c :: t =>
    if c = sep then some ([], t)
    else (splitOnce sep t).map (fun r => (c :: r.1, r.2))

/-- Raw split on ASCII whitespace (empty pieces kept). -/
def splitWsRaw : List Char → List (List Char)
  | [] => [[]]
  | c :: t =>
    if isWs c then [] :: splitWsRaw t
    else
      match splitWsRaw t with
      | [] => [[c]]
      | p :: ps => (c :: p) :: ps

/-- Rust `str::split_ascii_whitespace`: whitespace-separated tokens, empty
pieces dropped. -/
def splitWs (s : List Char) : List (List Char) :=
  (splitWsRaw s).filter (fun t => !t.isEmpty)

/-- The separator the `svg` crate's `Value` conversion uses to join a
`Vec<String>` attribute value. -/
def joinSpace : List (List Char) → List Char
  | [] => []
  | [t] => t
  | t :: t' :: ts => t ++ ' ' :: joinSpace (t' :: ts)

theorem splitSep_ne_nil (sep : Char) (l : List Char) : splitSep sep l ≠ [] := by
  cases l with
  | nil => simp [splitSep]
  | cons c t =>
    rw [splitSep]
    by_cases hc : c = sep
    · simp [hc]
    · rw [if_neg hc]
      rcases splitSep sep t with _ | ⟨p, ps⟩ <;> simp

theorem splitWsRaw_ne_nil (l : List Char) : splitWsRaw l ≠ [] := by
  cases l with
  | nil => simp [splitWsRaw]
  | cons c t =>
    rw [splitWsRaw]
    by_cases hc : isWs c
    · simp [hc]
    · rw [if_neg (by simpa using hc)]
      rcases splitWsRaw t with _ | ⟨p, ps⟩ <;> simp

theorem splitSep_nosep (sep : Char) (a : List Char) (h : ∀ c ∈ a, c ≠ sep) :
    splitSep sep a = [a] := by
  induction a with
  | nil => rfl
  | cons c t ih =>
    rw [splitSep, if_neg (h c (List.mem_cons_self c t)),
      ih fun x hx => h x (List.mem_cons_of_mem c hx)]

theorem splitSep_append (sep : Char) (a rest : List Char) (h : ∀ c ∈ a, c ≠ sep) :
    splitSep sep (a ++ sep :: rest) = a :: splitSep sep rest := by
  induction a with
  | nil => simp [splitSep]
  | cons c t ih =>
    rw [List.cons_append, splitSep, if_neg (h c (List.mem_cons_self c t)),
      ih fun x hx => h x (List.mem_cons_of_mem c hx)]

theorem splitOnce_append (sep : Char) (a rest : List Char) (h : ∀ c ∈ a, c ≠ sep) :
    splitOnce sep (a ++ sep :: rest) = some (a, rest) := by
  induction a with
  | nil => simp [splitOnce]
  | cons c t ih =>
    rw [List.cons_append, splitOnce, if_neg (h c (List.mem_cons_self c t)),
      ih fun x hx => h x (List.mem_cons_of_mem c hx)]
    rfl

theorem splitWsRaw_nows (a : List Char) (h : ∀ c ∈ a, isWs c = false) :
    splitWsRaw a = [a] := by
  induction a with
  | nil => rfl
  | cons c t ih =>
    rw [splitWsRaw, if_neg (by simp [h c (List.mem_cons_self c t)]),
      ih fun x hx => h x (List.mem_cons_of_mem c hx)]

theorem splitWsRaw_append (a rest : List Char) (h : ∀ c ∈ a, isWs c = false) :
    splitWsRaw (a ++ ' ' :: rest) = a :: splitWsRaw rest := by
  induction a with
  | nil =>
    rw [List.nil_append, splitWsRaw, if_pos (show isWs ' ' = true from by decide)]
  | cons c t ih =>
    rw [List.cons_append, splitWsRaw, if_neg (by simp [h c (List.mem_cons_self c t)]),
      ih fun x hx => h x (List.mem_cons_of_mem c hx)]

theorem splitWs_joinSpace (ts : List (List Char))
    (hne : ∀ t ∈ ts, t ≠ []) (hws : ∀ t ∈ ts, ∀ c ∈ t, isWs c = false) :
    splitWs (joinSpace ts) = ts := by
  induction ts with
  | nil => rfl
  | cons t ts ih =>
    rcases ts with _ | ⟨t', ts'⟩
    · rw [joinSpace, splitWs, splitWsRaw_nows t (hws t (List.mem_cons_self t _))]
      have ht : t.isEmpty = false := by
        cases t with
        | nil => exact absurd rfl (hne [] (List.mem_cons_self _ _))
        | cons a b => rfl
      simp [List.filter, ht]
    · rw [joinSpace, splitWs, splitWsRaw_append t _ (hws t (List.mem_cons_self t _))]
      have ht : t.isEmpty = false := by
        cases t with
        | nil => exact absurd rfl (hne [] (List.mem_cons_self _ _))
        | cons a b => rfl
      rw [List.filter_cons, if_pos (by simp [ht])]
      have hrec := ih (fun x hx => hne x (List.mem_cons_of_mem t hx))
        (fun x hx => hws x (List.mem_cons_of_mem t hx))
      rw [splitWs] at hrec
      rw [hrec]

/-! ## Document model (`src/lib.rs`, `src/elements/`) -/

inductive DocumentError where
  | invalidAttribute (name : String) (raw : List Char)
  | missingAttribute (name : String)
  | invalidPoint (raw : List Char)
  | unknownEvent
deriving DecidableEq, Repr

/-- The tokenizer's attribute mapping: attribute name → raw text value. -/
def AttrMap : Type := String → Option (List Char)

/-- `attributes.get(name).ok_or(MissingAttribute(name))?`. -/
def getAttr (m : AttrMap) (k : String) : Except DocumentError (List Char) :=
  match m k with
  | some v => .ok v
  | none => .error (.missingAttribute k)

/-- The optional `*-opacity` override: present and parsing as a float, it
replaces the color's alpha via `with_opacity`; present but malformed, it is
silently ignored. -/
def applyOpacity (m : AttrMap) (k : String) (c : Color) : Color :=
  match m k with
  | some s =>
    match parseFloatQ s with
    | some v => c.with_opacity v
    | none => c
  | none => c

/-- A required color attribute plus its optional opacity companion. -/
def parseColorAttr (m : AttrMap) (k opacityKey : String) : Except DocumentError Color := do
  let v ← getAttr m k
  match Color.fromStr v with
  | .ok c => pure (applyOpacity m opacityKey c)
  | .error _ => .error (.invalidAttribute k v)

/-- A required float attribute. -/
def parseFloatAttr (m : AttrMap) (k : String) : Except DocumentError ℚ := do
  let v ← getAttr m k
  match parseFloatQ v with
  | some x => pure x
  | none => .error (.invalidAttribute k v)

/-- A required `u8` attribute. -/
def parseU8Attr (m : AttrMap) (k : String) : Except DocumentError ℕ := do
  let v ← getAttr m k
  match parseU8 v with
  | some x => pure x
  | none => .error (.invalidAttribute k v)

/-- Short-circuiting token list decode (Rust's `collect::<Result<_, _>>()`). -/
def collectTokens {α : Type} (f : List Char → Except DocumentError α) :
    List (List Char) → Except DocumentError (List α)
  | [] => .ok []
  | t :: ts => do
    let x ← f t
    let xs ← collectTokens f ts
    pure (x :: xs)

/-! ### Line (`src/elements/line.rs`) -/

/-- `Point(x, y, pressure)` of a freehand stroke (named `LinePoint` at the
crate surface). -/
structure LinePoint where
  x : ℚ
  y : ℚ
  pressure : ℚ
deriving DecidableEq, Repr

structure Line where
  color : Color
  width : ℚ
  points : List LinePoint
deriving DecidableEq, Repr

/-- One `svgnote:points` token: exactly three comma-separated floats. -/
def parseLinePointToken (s : List Char) : Except DocumentError LinePoint :=
  let a := splitSep ',' s
  if a.length = 3 then
    match parseFloatQ (a.getD 0 []), parseFloatQ (a.getD 1 []), parseFloatQ (a.getD 2 []) with
    | some x, some y, some p => .ok ⟨x, y, p⟩
    | _, _, _ => .error (.invalidPoint s)
  else .error (.invalidPoint s)

/-- `Line::from_attributes`, field evaluation order as in the source struct
literal: color (stroke + optional stroke-opacity), points, width. -/
def Line.from_attributes (m : AttrMap) : Except DocumentError Line := do
  let color ← parseColorAttr m "stroke" "stroke-opacity"
  let pointsRaw ← getAttr m "svgnote:points"
  let points ← collectTokens parseLinePointToken (splitWs pointsRaw)
  let width ← parseFloatAttr m "svgnote:width"
  pure { color := color, width := width, points := points }

/-! ### Polyline (`src/elements/polygon.rs`) -/

structure PolylinePoint where
  x : ℚ
  y : ℚ
deriving DecidableEq, Repr

structure Polyline where
  stroke : Color
  fill : Color
  width : ℚ
  points : List PolylinePoint
deriving DecidableEq, Repr

/-- One `points` token: exactly two comma-separated floats. -/
def parsePolylinePointToken (s : List Char) : Except DocumentError PolylinePoint :=
  let a := splitSep ',' s
  if a.length = 2 then
    match parseFloatQ (a.getD 0 []), parseFloatQ (a.getD 1 []) with
    | some x, some y => .ok ⟨x, y⟩
    | _, _ => .error (.invalidPoint s)
  else .error (.invalidPoint s)

/-- `Polyline::from_attributes`: stroke, fill, points, width. -/
def Polyline.from_attributes (m : AttrMap) : Except DocumentError Polyline := do
  let stroke ← parseColorAttr m "stroke" "stroke-opacity"
  let fill ← parseColorAttr m "fill" "fill-opacity"
  let pointsRaw ← getAttr m "points"
  let points ← collectTokens parsePolylinePointToken (splitWs pointsRaw)
  let width ← parseFloatAttr m "stroke-width"
  pure { stroke := stroke, fill := fill, width := width, points := points }

/-! ### Ngon and Ellipse (`src/elements/mod.rs`) -/

structure Ngon where
  position : ℚ × ℚ
  stroke : Color
  fill : Color
  width : ℚ
  angle : ℚ
  n : ℕ
  radius : ℚ
deriving DecidableEq, Repr

/-- A required `x,y` pair attribute (`split_once(',')`, both halves floats). -/
def parsePositionAttr (m : AttrMap) (k : String) : Except DocumentError (ℚ × ℚ) := do
  let v ← getAttr m k
  match splitOnce ',' v with
  | none => .error (.invalidAttribute k v)
  | some r =>
    match parseFloatQ r.1, parseFloatQ r.2 with
    | some x, some y => pure (x, y)
    | _, _ => Except.error (.invalidAttribute k v)

/-- `Ngon::from_attributes`: position, width, radius, n, angle, fill,
stroke — the evaluation order of the source struct literal. -/
def Ngon.from_attributes (m : AttrMap) : Except DocumentError Ngon := do
  let position ← parsePositionAttr m "svgnote:position"
  let width ← parseFloatAttr m "stroke-width"
  let radius ← parseFloatAttr m "svgnote:radius"
  let n ← parseU8Attr m "svgnote:n"
  let angle ← parseFloatAttr m "svgnote:angle"
  let fill ← parseColorAttr m "fill" "fill-opacity"
  let stroke ← parseColorAttr m "stroke" "stroke-opacity"
  pure { position := position, stroke := stroke, fill := fill, width := width,
         angle := angle, n := n, radius := radius }

structure Ellipse where
  position : ℚ × ℚ
  stroke : Color
  fill : Color
  width : ℚ
  radius : ℚ
deriving DecidableEq, Repr

/-- `Ellipse::from_attributes`: position (cx, cy), width, radius (rx), fill,
stroke. -/
def Ellipse.from_attributes (m : AttrMap) : Except DocumentError Ellipse := do
  let cx ← parseFloatAttr m "cx"
  let cy ← parseFloatAttr m "cy"
  let width ← parseFloatAttr m "stroke-width"
  let radius ← parseFloatAttr m "rx"
  let fill ← parseColorAttr m "fill" "fill-opacity"
  let stroke ← parseColorAttr m "stroke" "stroke-opacity"
  pure { position := (cx, cy), stroke := stroke, fill := fill, width := width,
         radius := radius }

/-! ### Element dispatch and document assembly -/

inductive Element where
  | line (l : Line) (id : ℤ)
  | ngon (g : Ngon) (id : ℤ)
  | ellipse (e : Ellipse) (id : ℤ)
  | polyline (p : Polyline) (id : ℤ)
deriving DecidableEq, Repr

/-- A tokenizer event: a tag with its attribute mapping, or any non-tag
event (text, comment, declaration, …). -/
inductive Event where
  | tag (name : String) (attributes : AttrMap)
  | other

/-- `Element::from_event`: dispatch on the tag name, with the custom
`svgnote:tool` discriminator for `path`/`polygon`; non-shape events are the
(filtered) `UnknownEvent` error. -/
def Element.from_event (e : Event) (id : ℤ) : Except DocumentError Element :=
  match e with
  | .tag "path" attributes => do
    let tool ← getAttr attributes "svgnote:tool"
    if tool = "pen".toList then .ok (.line (← Line.from_attributes attributes) id)
    else .error (.invalidAttribute "svgnote:tool" tool)
  | .tag "polygon" attributes => do
    let tool ← getAttr attributes "svgnote:tool"
    if tool = "ngon".toList then .ok (.ngon (← Ngon.from_attributes attributes) id)
    else .error (.invalidAttribute "svgnote:tool" tool)
  | .tag "polyline" attributes => do
    .ok (.polyline (← Polyline.from_attributes attributes) id)
  | .tag "ellipse" attributes => do
    .ok (.ellipse (← Ellipse.from_attributes attributes) id)
  | .tag _ _ => .error .unknownEvent
  | .other => .error .unknownEvent

/-- `Document::from_str`'s fold over the event stream: the counter is
incremented before each `from_event` call (first value used: 2);
`UnknownEvent` results are filtered out; any other error aborts. -/
def documentFromEventsAux (id : ℤ) : List Event → Except DocumentError (List Element)
  | [] => .ok []
  | e :: es =>
    match Element.from_event e (id + 1) with
    | .error .unknownEvent => documentFromEventsAux (id + 1) es
    | .error err => .error err
    | .ok el => do
      let rest ← documentFromEventsAux (id + 1) es
      pure (el :: rest)

/-- `Document::from_str`, at the level of the tokenizer's event stream. -/
def Document.from_events (events : List Event) : Except DocumentError (List Element) :=
  documentFromEventsAux 1 events

/-- `elems_eq` from `src/lib.rs`: the document equality used by
`Document::eq`. -/
def elems_eq {α : Type} [DecidableEq α] (a b : List α) : Bool :=
  a.length == b.length &&
    ((a.zip b).filter fun p => p.1 == p.2).length == a.length

/-! ## Shape encode (`From<&Shape>` impls) -/

/-- `Display` for a stroke point: `x,y,pressure`. -/
def LinePoint.toText (p : LinePoint) : List Char :=
  formatQ p.x ++ ',' :: (formatQ p.y ++ ',' :: formatQ p.pressure)

/-- `Display` for a polyline point: `x,y`. -/
def PolylinePoint.toText (p : PolylinePoint) : List Char :=
  formatQ p.x ++ ',' :: formatQ p.y

/-- `format!("{},{}", x, y)`. -/
def pairText (x y : ℚ) : List Char := formatQ x ++ ',' :: formatQ y

/-- `From<&Line> for element::Path`: the emitted attribute mapping.  The
generated `d` path-data text (never read back) is a parameter. -/
def Line.toAttrs (dText : List Char) (l : Line) : AttrMap := fun k =>
  match k with
  | "stroke" => some l.color.toTextNa
  | "stroke-opacity" => some (formatQ l.color.opacity)
  | "stroke-width" => some (formatQ l.width)
  | "svgnote:width" => some (formatQ l.width)
  | "svgnote:points" => some (joinSpace (l.points.map LinePoint.toText))
  | "svgnote:tool" => some "pen".toList
  | "fill-opacity" => some "0".toList
  | "stroke-linecap" => some "round".toList
  | "stroke-linejoin" => some "round".toList
  | "d" => some dText
  | _ => none

/-- `From<&Ngon> for element::Polygon`.  The generated viewer `points` text
(derived vertices, never read back) is a parameter. -/
def Ngon.toAttrs (pointsText : List Char) (g : Ngon) : AttrMap := fun k =>
  match k with
  | "svgnote:position" => some (pairText g.position.1 g.position.2)
  | "stroke" => some g.stroke.toTextNa
  | "fill" => some g.fill.toTextNa
  | "stroke-opacity" => some (formatQ g.stroke.opacity)
  | "fill-opacity" => some (formatQ g.fill.opacity)
  | "stroke-width" => some (formatQ g.width)
  | "svgnote:angle" => some (formatQ g.angle)
  | "svgnote:n" => some (natToDec g.n)
  | "svgnote:radius" => some (formatQ g.radius)
  | "svgnote:tool" => some "ngon".toList
  | "stroke-linecap" => some "round".toList
  | "stroke-linejoin" => some "round".toList
  | "points" => some pointsText
  | _ => none

/-- `From<&Ellipse> for element::Ellipse`. -/
def Ellipse.toAttrs (e : Ellipse) : AttrMap := fun k =>
  match k with
  | "stroke" => some e.stroke.toTextNa
  | "stroke-opacity" => some (formatQ e.stroke.opacity)
  | "fill" => some e.fill.toTextNa
  | "fill-opacity" => some (formatQ e.fill.opacity)
  | "stroke-width" => some (formatQ e.width)
  | "cx" => some (formatQ e.position.1)
  | "cy" => some (formatQ e.position.2)
  | "rx" => some (formatQ e.radius)
  | "ry" => some (formatQ e.radius)
  | _ => none

/-- `From<&Polyline> for element::Polyline`. -/
def Polyline.toAttrs (p : Polyline) : AttrMap := fun k =>
  match k with
  | "stroke" => some p.stroke.toTextNa
  | "fill" => some p.fill.toTextNa
  | "stroke-opacity" => some (formatQ p.stroke.opacity)
  | "fill-opacity" => some (formatQ p.fill.opacity)
  | "stroke-width" => some (formatQ p.width)
  | "points" => some (joinSpace (p.points.map PolylinePoint.toText))
  | "stroke-linecap" => some "round".toList
  | "stroke-linejoin" => some "round".toList
  | _ => none

/-- The tag/attribute event a single element renders to (`Document::fmt`'s
per-variant `doc.add`). -/
def Element.renderEvent (dGen : Line → List Char) (pGen : Ngon → List Char) :
    Element → Event
  | .line l _ => .tag "path" (l.toAttrs (dGen l))
  | .ngon g _ => .tag "polygon" (g.toAttrs (pGen g))
  | .ellipse e _ => .tag "ellipse" e.toAttrs
  | .polyline p _ => .tag "polyline" p.toAttrs

/-- The fixed attributes of the `svg` root element in `Document::fmt`. -/
def svgRootAttrs : AttrMap := fun k =>
  match k with
  | "viewBox" => some "0 0 2000 2000".toList
  | "width" => some "100mm".toList
  | "height" => some "100mm".toList
  | "xmlns:svgnote" => some "https://github.com/ModProg/SVGNotesLib".toList
  | "svgnote:version" => some "0.1".toList
  | _ => none

/-- Modelled from the spec: the out-of-scope XML builder/tokenizer pair is a
faithful transport of (tag-name, attribute-mapping) events.  Rendering a
document produces the fixed preamble (XML declaration and comment — non-tag
events), the `svg` root open tag, each element's event in order, and the
root close tag; re-tokenizing yields the same event sequence. -/
def Document.renderEvents (dGen : Line → List Char) (pGen : Ngon → List Char)
    (elements : List Element) : List Event :=
  .other :: .other :: .tag "svg" svgRootAttrs ::
    (elements.map (Element.renderEvent dGen pGen) ++ [.tag "svg" (fun _ => none)])

/-! ## Validity: the in-memory values representable in the textual model -/

def LinePoint.Valid (p : LinePoint) : Prop :=
  DecRepQ p.x ∧ DecRepQ p.y ∧ DecRepQ p.pressure

def Line.Valid (l : Line) : Prop :=
  l.color.Valid ∧ DecRepQ l.width ∧ ∀ p ∈ l.points, p.Valid

def Ngon.Valid (g : Ngon) : Prop :=
  DecRepQ g.position.1 ∧ DecRepQ g.position.2 ∧ g.stroke.Valid ∧ g.fill.Valid ∧
    DecRepQ g.width ∧ DecRepQ g.angle ∧ g.n ≤ 255 ∧ DecRepQ g.radius

def Ellipse.Valid (e : Ellipse) : Prop :=
  DecRepQ e.position.1 ∧ DecRepQ e.position.2 ∧ e.stroke.Valid ∧ e.fill.Valid ∧
    DecRepQ e.width ∧ DecRepQ e.radius

def Polyline.Valid (p : Polyline) : Prop :=
  p.stroke.Valid ∧ p.fill.Valid ∧ DecRepQ p.width ∧
    ∀ q ∈ p.points, DecRepQ q.x ∧ DecRepQ q.y

def Element.Valid : Element → Prop
  | .line l _ => l.Valid
  | .ngon g _ => g.Valid
  | .ellipse e _ => e.Valid
  | .polyline p _ => p.Valid

def Document.Valid (elements : List Element) : Prop :=
  ∀ el ∈ elements, el.Valid

instance (p : LinePoint) : Decidable p.Valid := by unfold LinePoint.Valid; infer_instance

instance (l : Line) : Decidable l.Valid := by unfold Line.Valid; infer_instance

instance (g : Ngon) : Decidable g.Valid := by unfold Ngon.Valid; infer_instance

instance (e : Ellipse) : Decidable e.Valid := by unfold Ellipse.Valid; infer_instance

instance (p : Polyline) : Decidable p.Valid := by unfold Polyline.Valid; infer_instance

instance (el : Element) : Decidable el.Valid := by
  unfold Element.Valid
  cases el <;> infer_instance

instance (elements : List Element) : Decidable (Document.Valid elements) := by
  unfold Document.Valid; infer_instance

/-- The id stored in an element. -/
def Element.idOf : Element → ℤ
  | .line _ i => i
  | .ngon _ i => i
  | .ellipse _ i => i
  | .polyline _ i => i

/-- The same element with a different id. -/
def Element.withId : Element → ℤ → Element
  | .line l _, i => .line l i
  | .ngon g _, i => .ngon g i
  | .ellipse e _, i => .ellipse e i
  | .polyline p _, i => .polyline p i

/-- Consecutive id reassignment, as decode performs it. -/
def reassignIds (start : ℤ) : List Element → List Element
  | [] => []
  | e :: es => e.withId start :: reassignIds (start + 1) es

/-! ## Decode of encode: helper lemmas -/

theorem formatQ_ne_nil (q : ℚ) : formatQ q ≠ [] := by
  rw [formatQ]
  obtain ⟨-, -, hne⟩ := natToDec_spec (q.num.natAbs * (decScale / q.den))
  by_cases hq : q < 0
  · rw [if_pos hq]
    simp
  · rw [if_neg hq, List.nil_append]
    simp [hne]

theorem formatQ_chars (q : ℚ) :
    ∀ c ∈ formatQ q, c ≠ ',' ∧ isWs c = false := by
  intro c hc
  rw [formatQ] at hc
  rcases List.mem_append.mp hc with h1 | h2
  · rcases List.mem_append.mp h1 with hs | hd
    · by_cases hq : q < 0
      · rw [if_pos hq] at hs
        rcases List.mem_singleton.mp hs with rfl
        exact ⟨by decide, by decide⟩
      · rw [if_neg hq] at hs
        exact absurd hs (List.not_mem_nil c)
    · have := mem_natToDec_digit hd
      exact ⟨fun he => absurd (decDigit_ne_comma this) (by simp [he]), decDigit_not_ws this⟩
  · rcases List.mem_cons.mp h2 with rfl | h2
    · exact ⟨by decide, by decide⟩
    rcases List.mem_cons.mp h2 with rfl | h3
    · exact ⟨by decide, by decide⟩
    have := mem_natToDec_digit h3
    exact ⟨fun he => absurd (decDigit_ne_comma this) (by simp [he]), decDigit_not_ws this⟩

theorem parseHexByte_FF : parseHexByte 'F' 'F' = some 255 := by decide

/-- Parsing the alpha-dropped 6-digit form recovers the color with full
opacity. -/
theorem colorNa_roundtrip (c : Color) (h : c.Valid) :
    Color.fromStr c.toTextNa = .ok ⟨c.r, c.g, c.b, 255⟩ := by
  obtain ⟨hr, hg, hb, _⟩ := h
  show Color.fromStrFuel 3 c.toTextNa = .ok ⟨c.r, c.g, c.b, 255⟩
  rw [Color.toTextNa, toHex2, toHex2, toHex2]
  rw [show (3 : ℕ) = 1 + 2 from rfl]
  rw [fromStrFuel_len7 1 _ (by simp)]
  rw [colorParse9]
  simp only [List.cons_append, List.nil_append, List.getD_cons_succ, List.getD_cons_zero]
  rw [parseHexByte_toHex2 _ hr, parseHexByte_toHex2 _ hg, parseHexByte_toHex2 _ hb,
    parseHexByte_FF]

set_option maxRecDepth 4000 in
/-- Every opacity value `u2f a` has a finite decimal representation (it is a
binary32 value). -/
theorem u2f_decRep : ∀ a : ℕ, a < 256 → DecRepQ (u2f a) := by decide

theorem parseColorAttr_encode (m : AttrMap) (k okey : String) (c : Color) (hv : c.Valid)
    (hk : m k = some c.toTextNa) (hop : m okey = some (formatQ (u2f c.a))) :
    parseColorAttr m k okey = .ok c := by
  rw [parseColorAttr, getAttr, hk]
  show (match Color.fromStr c.toTextNa with
    | Except.ok c' => Except.ok (applyOpacity m okey c')
    | Except.error _ =>
      Except.error (DocumentError.invalidAttribute k c.toTextNa)) = Except.ok c
  rw [colorNa_roundtrip c hv]
  show Except.ok (applyOpacity m okey ⟨c.r, c.g, c.b, 255⟩) = .ok c
  rw [applyOpacity, hop]
  show Except.ok (match parseFloatQ (formatQ (u2f c.a)) with
    | some v => Color.with_opacity ⟨c.r, c.g, c.b, 255⟩ v
    | none => (⟨c.r, c.g, c.b, 255⟩ : Color)) = Except.ok c
  rw [parseFloatQ_formatQ _ (u2f_decRep c.a hv.2.2.2)]
  show Except.ok (Color.with_opacity ⟨c.r, c.g, c.b, 255⟩ (u2f c.a)) = .ok c
  rw [Color.with_opacity]
  show Except.ok ⟨c.r, c.g, c.b, f2u (u2f c.a)⟩ = .ok c
  rw [f2u_u2f c.a hv.2.2.2]

theorem parseFloatAttr_encode (m : AttrMap) (k : String) (q : ℚ) (hq : DecRepQ q)
    (hk : m k = some (formatQ q)) : parseFloatAttr m k = .ok q := by
  rw [parseFloatAttr, getAttr, hk]
  show (match parseFloatQ (formatQ q) with
    | some x => Except.ok x
    | none =>
      Except.error (DocumentError.invalidAttribute k (formatQ q))) = Except.ok q
  rw [parseFloatQ_formatQ q hq]

theorem parseU8Attr_encode (m : AttrMap) (k : String) (n : ℕ) (hn : n ≤ 255)
    (hk : m k = some (natToDec n)) : parseU8Attr m k = .ok n := by
  rw [parseU8Attr, getAttr, hk]
  show (match parseU8 (natToDec n) with
    | some x => Except.ok x
    | none =>
      Except.error (DocumentError.invalidAttribute k (natToDec n))) = Except.ok n
  rw [parseU8_natToDec n hn]

theorem parseLinePointToken_encode (p : LinePoint) (h : p.Valid) :
    parseLinePointToken p.toText = .ok p := by
  obtain ⟨hx, hy, hp⟩ := h
  have hsplit : splitSep ',' p.toText = [formatQ p.x, formatQ p.y, formatQ p.pressure] := by
    rw [LinePoint.toText,
      splitSep_append ',' _ _ (fun c hc => (formatQ_chars _ c hc).1),
      splitSep_append ',' _ _ (fun c hc => (formatQ_chars _ c hc).1),
      splitSep_nosep ',' _ (fun c hc => (formatQ_chars _ c hc).1)]
  rw [parseLinePointToken, hsplit]
  rw [if_pos (by simp)]
  show (match parseFloatQ (formatQ p.x), parseFloatQ (formatQ p.y),
      parseFloatQ (formatQ p.pressure) with
    | some x, some y, some pr => Except.ok (LinePoint.mk x y pr)
    | _, _, _ => Except.error (DocumentError.invalidPoint p.toText)) = Except.ok p
  rw [parseFloatQ_formatQ p.x hx, parseFloatQ_formatQ p.y hy, parseFloatQ_formatQ p.pressure hp]

theorem parsePolylinePointToken_encode (p : PolylinePoint) (hx : DecRepQ p.x)
    (hy : DecRepQ p.y) : parsePolylinePointToken p.toText = .ok p := by
  have hsplit : splitSep ',' p.toText = [formatQ p.x, formatQ p.y] := by
    rw [PolylinePoint.toText,
      splitSep_append ',' _ _ (fun c hc => (formatQ_chars _ c hc).1),
      splitSep_nosep ',' _ (fun c hc => (formatQ_chars _ c hc).1)]
  rw [parsePolylinePointToken, hsplit]
  rw [if_pos (by simp)]
  show (match parseFloatQ (formatQ p.x), parseFloatQ (formatQ p.y) with
    | some x, some y => Except.ok (PolylinePoint.mk x y)
    | _, _ => Except.error (DocumentError.invalidPoint p.toText)) = Except.ok p
  rw [parseFloatQ_formatQ p.x hx, parseFloatQ_formatQ p.y hy]

theorem collectTokens_encode {α : Type} (f : List Char → Except DocumentError α)
    (g : α → List Char) (xs : List α) (h : ∀ x ∈ xs, f (g x) = .ok x) :
    collectTokens f (xs.map g) = .ok xs := by
  induction xs with
  | nil => rfl
  | cons x xs ih =>
    rw [List.map_cons, collectTokens, h x (List.mem_cons_self x xs),
      ih fun y hy => h y (List.mem_cons_of_mem x hy)]
    rfl

theorem linePointText_ne_nil (p : LinePoint) : p.toText ≠ [] := by
  rw [LinePoint.toText]
  rcases formatQ p.x with _ | _ <;> simp

theorem linePointText_no_ws (p : LinePoint) : ∀ c ∈ p.toText, isWs c = false := by
  intro c hc
  rw [LinePoint.toText] at hc
  rcases List.mem_append.mp hc with h1 | h2
  · exact (formatQ_chars _ c h1).2
  rcases List.mem_cons.mp h2 with rfl | h3
  · decide
  rcases List.mem_append.mp h3 with h4 | h5
  · exact (formatQ_chars _ c h4).2
  rcases List.mem_cons.mp h5 with rfl | h6
  · decide
  exact (formatQ_chars _ c h6).2

theorem polylinePointText_ne_nil (p : PolylinePoint) : p.toText ≠ [] := by
  rw [PolylinePoint.toText]
  rcases formatQ p.x with _ | _ <;> simp

theorem polylinePointText_no_ws (p : PolylinePoint) : ∀ c ∈ p.toText, isWs c = false := by
  intro c hc
  rw [PolylinePoint.toText] at hc
  rcases List.mem_append.mp hc with h1 | h2
  · exact (formatQ_chars _ c h1).2
  rcases List.mem_cons.mp h2 with rfl | h3
  · decide
  exact (formatQ_chars _ c h3).2

/-- Decoding the attributes emitted for a `Line` recovers it exactly. -/
theorem line_decode_encode (d : List Char) (l : Line) (h : l.Valid) :
    Line.from_attributes (l.toAttrs d) = .ok l := by
  obtain ⟨hc, hw, hpts⟩ := h
  have h1 : parseColorAttr (l.toAttrs d) "stroke" "stroke-opacity" = .ok l.color :=
    parseColorAttr_encode _ _ _ _ hc rfl rfl
  have h3 : splitWs (joinSpace (l.points.map LinePoint.toText)) =
      l.points.map LinePoint.toText :=
    splitWs_joinSpace _
      (by
        intro t ht
        obtain ⟨p, -, rfl⟩ := List.mem_map.mp ht
        exact linePointText_ne_nil p)
      (by
        intro t ht
        obtain ⟨p, -, rfl⟩ := List.mem_map.mp ht
        exact linePointText_no_ws p)
  have h4 : collectTokens parseLinePointToken (l.points.map LinePoint.toText) = .ok l.points :=
    collectTokens_encode _ _ _ (fun p hp => parseLinePointToken_encode p (hpts p hp))
  have h5 : parseFloatAttr (l.toAttrs d) "svgnote:width" = .ok l.width :=
    parseFloatAttr_encode _ _ _ hw rfl
  rw [Line.from_attributes, h1]
  show (do
    let pointsRaw ← getAttr (l.toAttrs d) "svgnote:points"
    let points ← collectTokens parseLinePointToken (splitWs pointsRaw)
    let width ← parseFloatAttr (l.toAttrs d) "svgnote:width"
    Except.ok { color := l.color, width := width, points := points } :
      Except DocumentError Line) = .ok l
  rw [show getAttr (l.toAttrs d) "svgnote:points" =
    .ok (joinSpace (l.points.map LinePoint.toText)) from rfl]
  show (do
    let points ← collectTokens parseLinePointToken
      (splitWs (joinSpace (l.points.map LinePoint.toText)))
    let width ← parseFloatAttr (l.toAttrs d) "svgnote:width"
    Except.ok { color := l.color, width := width, points := points } :
      Except DocumentError Line) = .ok l
  rw [h3, h4, h5]
  rfl

theorem parsePositionAttr_encode (m : AttrMap) (k : String) (x y : ℚ)
    (hx : DecRepQ x) (hy : DecRepQ y) (hk : m k = some (pairText x y)) :
    parsePositionAttr m k = .ok (x, y) := by
  rw [parsePositionAttr, getAttr, hk]
  show (match splitOnce ',' (pairText x y) with
    | none => Except.error (DocumentError.invalidAttribute k (pairText x y))
    | some r =>
      match parseFloatQ r.1, parseFloatQ r.2 with
      | some x', some y' => Except.ok (x', y')
      | _, _ => Except.error (DocumentError.invalidAttribute k (pairText x y))) =
    Except.ok (x, y)
  rw [pairText, splitOnce_append ',' _ _ (fun c hc => (formatQ_chars _ c hc).1)]
  show (match parseFloatQ (formatQ x), parseFloatQ (formatQ y) with
    | some x', some y' => Except.ok (x', y')
    | _, _ => Except.error (DocumentError.invalidAttribute k (pairText x y))) = Except.ok (x, y)
  rw [parseFloatQ_formatQ x hx, parseFloatQ_formatQ y hy]

/-- Decoding the attributes emitted for an `Ngon` recovers it exactly. -/
theorem ngon_decode_encode (pts : List Char) (g : Ngon) (h : g.Valid) :
    Ngon.from_attributes (g.toAttrs pts) = .ok g := by
  obtain ⟨hpx, hpy, hs, hf, hw, ha, hn, hr⟩ := h
  have h1 : parsePositionAttr (g.toAttrs pts) "svgnote:position" = .ok (g.position.1, g.position.2) :=
    parsePositionAttr_encode _ _ _ _ hpx hpy rfl
  have h2 : parseFloatAttr (g.toAttrs pts) "stroke-width" = .ok g.width :=
    parseFloatAttr_encode _ _ _ hw rfl
  have h3 : parseFloatAttr (g.toAttrs pts) "svgnote:radius" = .ok g.radius :=
    parseFloatAttr_encode _ _ _ hr rfl
  have h4 : parseU8Attr (g.toAttrs pts) "svgnote:n" = .ok g.n :=
    parseU8Attr_encode _ _ _ hn rfl
  have h5 : parseFloatAttr (g.toAttrs pts) "svgnote:angle" = .ok g.angle :=
    parseFloatAttr_encode _ _ _ ha rfl
  have h6 : parseColorAttr (g.toAttrs pts) "fill" "fill-opacity" = .ok g.fill :=
    parseColorAttr_encode _ _ _ _ hf rfl rfl
  have h7 : parseColorAttr (g.toAttrs pts) "stroke" "stroke-opacity" = .ok g.stroke :=
    parseColorAttr_encode _ _ _ _ hs rfl rfl
  rw [Ngon.from_attributes, h1, h2, h3, h4, h5, h6, h7]
  rfl

/-- Decoding the attributes emitted for an `Ellipse` recovers it exactly. -/
theorem ellipse_decode_encode (e : Ellipse) (h : e.Valid) :
    Ellipse.from_attributes e.toAttrs = .ok e := by
  obtain ⟨hpx, hpy, hs, hf, hw, hr⟩ := h
  have h1 : parseFloatAttr e.toAttrs "cx" = .ok e.position.1 :=
    parseFloatAttr_encode _ _ _ hpx rfl
  have h2 : parseFloatAttr e.toAttrs "cy" = .ok e.position.2 :=
    parseFloatAttr_encode _ _ _ hpy rfl
  have h3 : parseFloatAttr e.toAttrs "stroke-width" = .ok e.width :=
    parseFloatAttr_encode _ _ _ hw rfl
  have h4 : parseFloatAttr e.toAttrs "rx" = .ok e.radius :=
    parseFloatAttr_encode _ _ _ hr rfl
  have h5 : parseColorAttr e.toAttrs "fill" "fill-opacity" = .ok e.fill :=
    parseColorAttr_encode _ _ _ _ hf rfl rfl
  have h6 : parseColorAttr e.toAttrs "stroke" "stroke-opacity" = .ok e.stroke :=
    parseColorAttr_encode _ _ _ _ hs rfl rfl
  rw [Ellipse.from_attributes, h1, h2, h3, h4, h5, h6]
  rfl

/-- Decoding the attributes emitted for a `Polyline` recovers it exactly. -/
theorem polyline_decode_encode (p : Polyline) (h : p.Valid) :
    Polyline.from_attributes p.toAttrs = .ok p := by
  obtain ⟨hs, hf, hw, hpts⟩ := h
  have h1 : parseColorAttr p.toAttrs "stroke" "stroke-opacity" = .ok p.stroke :=
    parseColorAttr_encode _ _ _ _ hs rfl rfl
  have h2 : parseColorAttr p.toAttrs "fill" "fill-opacity" = .ok p.fill :=
    parseColorAttr_encode _ _ _ _ hf rfl rfl
  have h3 : splitWs (joinSpace (p.points.map PolylinePoint.toText)) =
      p.points.map PolylinePoint.toText :=
    splitWs_joinSpace _
      (by
        intro t ht
        obtain ⟨q, -, rfl⟩ := List.mem_map.mp ht
        exact polylinePointText_ne_nil q)
      (by
        intro t ht
        obtain ⟨q, -, rfl⟩ := List.mem_map.mp ht
        exact polylinePointText_no_ws q)
  have h4 : collectTokens parsePolylinePointToken (p.points.map PolylinePoint.toText) =
      .ok p.points :=
    collectTokens_encode _ _ _
      (fun q hq => parsePolylinePointToken_encode q (hpts q hq).1 (hpts q hq).2)
  have h5 : parseFloatAttr p.toAttrs "stroke-width" = .ok p.width :=
    parseFloatAttr_encode _ _ _ hw rfl
  rw [Polyline.from_attributes, h1, h2]
  show (do
    let pointsRaw ← getAttr p.toAttrs "points"
    let points ← collectTokens parsePolylinePointToken (splitWs pointsRaw)
    let width ← parseFloatAttr p.toAttrs "stroke-width"
    Except.ok { stroke := p.stroke, fill := p.fill, width := width, points := points } :
      Except DocumentError Polyline) = .ok p
  rw [show getAttr p.toAttrs "points" =
    .ok (joinSpace (p.points.map PolylinePoint.toText)) from rfl]
  show (do
    let points ← collectTokens parsePolylinePointToken
      (splitWs (joinSpace (p.points.map PolylinePoint.toText)))
    let width ← parseFloatAttr p.toAttrs "stroke-width"
    Except.ok { stroke := p.stroke, fill := p.fill, width := width, points := points } :
      Except DocumentError Polyline) = .ok p
  rw [h3, h4, h5]
  rfl

/-- Decoding the event an element renders to recovers the element, with
whatever id the decoder supplies. -/
theorem element_decode_encode (dg : Line → List Char) (pg : Ngon → List Char)
    (el : Element) (i : ℤ) (h : el.Valid) :
    Element.from_event (Element.renderEvent dg pg el) i = .ok (el.withId i) := by
  cases el with
  | line l j =>
    show (do
      let x ← Line.from_attributes (l.toAttrs (dg l))
      Except.ok (Element.line x i) : Except DocumentError Element) = .ok (.line l i)
    rw [line_decode_encode (dg l) l h]
    rfl
  | ngon g j =>
    show (do
      let x ← Ngon.from_attributes (g.toAttrs (pg g))
      Except.ok (Element.ngon x i) : Except DocumentError Element) = .ok (.ngon g i)
    rw [ngon_decode_encode (pg g) g h]
    rfl
  | ellipse e j =>
    show (do
      let x ← Ellipse.from_attributes e.toAttrs
      Except.ok (Element.ellipse x i) : Except DocumentError Element) = .ok (.ellipse e i)
    rw [ellipse_decode_encode e h]
    rfl
  | polyline p j =>
    show (do
      let x ← Polyline.from_attributes p.toAttrs
      Except.ok (Element.polyline x i) : Except DocumentError Element) = .ok (.polyline p i)
    rw [polyline_decode_encode p h]
    rfl

theorem documentFromEventsAux_render (dg : Line → List Char) (pg : Ngon → List Char)
    (elems : List Element) (i : ℤ) (h : Document.Valid elems) :
    documentFromEventsAux i
      (elems.map (Element.renderEvent dg pg) ++ [Event.tag "svg" (fun _ => none)]) =
      .ok (reassignIds (i + 1) elems) := by
  induction elems generalizing i with
  | nil => rfl
  | cons el els ih =>
    have hel := element_decode_encode dg pg el (i + 1) (h el (List.mem_cons_self el els))
    rw [List.map_cons, List.cons_append, documentFromEventsAux, hel]
    rw [ih (i + 1) (fun x hx => h x (List.mem_cons_of_mem el hx))]
    rfl

/-- Decoding a rendered document succeeds and returns exactly the original
shapes in order, with ids reassigned consecutively from 5 (three preamble
events and the counter's pre-increment precede the first element). -/
theorem document_decode_render (dg : Line → List Char) (pg : Ngon → List Char)
    (elems : List Element) (h : Document.Valid elems) :
    Document.from_events (Document.renderEvents dg pg elems) = .ok (reassignIds 5 elems) := by
  have h4 := documentFromEventsAux_render dg pg elems 4 h
  show documentFromEventsAux 4
    (elems.map (Element.renderEvent dg pg) ++ [Event.tag "svg" (fun _ => none)]) =
    .ok (reassignIds 5 elems)
  rw [h4]
  rfl

theorem filter_length_eq_all {α : Type} (p : α → Bool) (l : List α)
    (h : (l.filter p).length = l.length) : ∀ x ∈ l, p x = true := by
  induction l with
  | nil => intro x hx; exact absurd hx (List.not_mem_nil x)
  | cons a t ih =>
    by_cases hp : p a = true
    · rw [List.filter_cons, if_pos hp, List.length_cons, List.length_cons] at h
      intro x hx
      rcases List.mem_cons.mp hx with rfl | hx'
      · exact hp
      · exact ih (by omega) x hx'
    · rw [List.filter_cons, if_neg hp, List.length_cons] at h
      have hle := List.length_filter_le p t
      omega

theorem zip_self_filter {α : Type} [DecidableEq α] (a : List α) :
    ((a.zip a).filter fun p => p.1 == p.2).length = a.length := by
  induction a with
  | nil => rfl
  | cons x t ih =>
    rw [List.zip_cons_cons, List.filter_cons, if_pos (by simp), List.length_cons,
      List.length_cons, ih]

/-- The source's `elems_eq` (the `PartialEq` of `Document`) is positional
equality: it holds exactly when the two element lists are equal. -/
theorem elems_eq_iff_eq {α : Type} [DecidableEq α] (a b : List α) :
    elems_eq a b = true ↔ a = b := by
  constructor
  · intro h
    rw [elems_eq, Bool.and_eq_true, beq_iff_eq, beq_iff_eq] at h
    obtain ⟨hlen, hfil⟩ := h
    have hall := filter_length_eq_all _ _ (by rw [hfil, List.length_zip, hlen, min_self])
    clear hfil
    induction a generalizing b with
    | nil =>
      cases b with
      | nil => rfl
      | cons y t => exact absurd hlen (by simp)
    | cons x t ih =>
      cases b with
      | nil => exact absurd hlen (by simp)
      | cons y u =>
        have hxy : x = y := by
          have := hall (x, y) (by rw [List.zip_cons_cons]; exact List.mem_cons_self _ _)
          simpa using this
        have hrec : t = u := by
          refine ih u (by simpa using hlen) ?_
          intro z hz
          exact hall z (by rw [List.zip_cons_cons]; exact List.mem_cons_of_mem _ hz)
        rw [hxy, hrec]
  · rintro rfl
    rw [elems_eq, Bool.and_eq_true, beq_iff_eq, beq_iff_eq]
    exact ⟨rfl, zip_self_filter a⟩

/-- C1 (amended): decoding a rendered document always succeeds and yields
exactly the original shape sequence in order, but with identifiers
reassigned consecutively by the decode counter (the three preamble events
plus pre-increment make the first element's id 5); consequently
`parse(render(d)) == d` — `==` being the source's positional `elems_eq` —
holds precisely when `d`'s identifiers already equal that reassignment,
not for every valid document. -/
theorem document_roundtrip_amended (dg : Line → List Char) (pg : Ngon → List Char)
    (elems : List Element) (h : Document.Valid elems) :
    Document.from_events (Document.renderEvents dg pg elems) = .ok (reassignIds 5 elems) ∧
    (∀ res, Document.from_events (Document.renderEvents dg pg elems) = .ok res →
      (elems_eq res elems = true ↔ reassignIds 5 elems = elems)) := by
  have hd := document_decode_render dg pg elems h
  refine ⟨hd, fun res hres => ?_⟩
  rw [hd] at hres
  have : res = reassignIds 5 elems := by
    have := Except.ok.inj hres
    exact this.symm
  rw [this, elems_eq_iff_eq]

/-- C1 witness: a concrete valid one-ellipse document whose id happens to
match the decoder's assignment round-trips on the nose. -/
theorem document_roundtrip_amended_witness :
    Document.Valid [Element.ellipse ⟨(1, 2), ⟨1, 2, 3, 255⟩, ⟨4, 5, 6, 255⟩, 7, 8⟩ 5] ∧
    Document.from_events (Document.renderEvents (fun _ => []) (fun _ => [])
      [Element.ellipse ⟨(1, 2), ⟨1, 2, 3, 255⟩, ⟨4, 5, 6, 255⟩, 7, 8⟩ 5]) =
      .ok [Element.ellipse ⟨(1, 2), ⟨1, 2, 3, 255⟩, ⟨4, 5, 6, 255⟩, 7, 8⟩ 5] := by
  refine ⟨by decide, ?_⟩
  have := (document_roundtrip_amended (fun _ => []) (fun _ => [])
    [Element.ellipse ⟨(1, 2), ⟨1, 2, 3, 255⟩, ⟨4, 5, 6, 255⟩, 7, 8⟩ 5] (by decide)).1
  rw [this]
  rfl

/-- C1 counterexample: the same document with element id 0 is valid, decodes
successfully, but the decoded document differs from the original (the id is
reassigned to 5), refuting `parse(render(d)) == d` as stated. -/
theorem document_roundtrip_counterexample :
    Document.Valid [Element.ellipse ⟨(1, 2), ⟨1, 2, 3, 255⟩, ⟨4, 5, 6, 255⟩, 7, 8⟩ 0] ∧
    Document.from_events (Document.renderEvents (fun _ => []) (fun _ => [])
      [Element.ellipse ⟨(1, 2), ⟨1, 2, 3, 255⟩, ⟨4, 5, 6, 255⟩, 7, 8⟩ 0]) ≠
      .ok [Element.ellipse ⟨(1, 2), ⟨1, 2, 3, 255⟩, ⟨4, 5, 6, 255⟩, 7, 8⟩ 0] := by
  refine ⟨by decide, ?_⟩
  have := document_decode_render (fun _ => []) (fun _ => [])
    [Element.ellipse ⟨(1, 2), ⟨1, 2, 3, 255⟩, ⟨4, 5, 6, 255⟩, 7, 8⟩ 0] (by decide)
  rw [this]
  intro hcontra
  have := Except.ok.inj hcontra
  simp [reassignIds, Element.withId] at this

/-! ## Missing required attributes (C6) -/

theorem bind_ok_reduce {ε α β : Type} (a : α) (f : α → Except ε β) :
    (Bind.bind (Except.ok a : Except ε α) f) = f a := rfl

theorem bind_error_reduce {ε α β : Type} (e : ε) (f : α → Except ε β) :
    (Bind.bind (Except.error e : Except ε α) f) = .error e := rfl

/-- Remove one attribute from a mapping. -/
def eraseAttr (m : AttrMap) (k : String) : AttrMap :=
  fun x => if x = k then none else m x

def lineRequired : List String := ["stroke", "svgnote:points", "svgnote:width"]

def ngonRequired : List String :=
  ["svgnote:position", "stroke-width", "svgnote:radius", "svgnote:n", "svgnote:angle",
   "fill", "stroke"]

def ellipseRequired : List String := ["cx", "cy", "stroke-width", "rx", "fill", "stroke"]

def polylineRequired : List String := ["stroke", "fill", "points", "stroke-width"]

theorem parseColorAttr_some {m : AttrMap} {k o : String} {c : Color}
    (h : parseColorAttr m k o = .ok c) : ∃ v, m k = some v := by
  rcases hv : m k with _ | v
  · rw [parseColorAttr, getAttr, hv, bind_error_reduce] at h
    exact Except.noConfusion h
  · exact ⟨v, rfl⟩

theorem parseFloatAttr_some {m : AttrMap} {k : String} {q : ℚ}
    (h : parseFloatAttr m k = .ok q) : ∃ v, m k = some v := by
  rcases hv : m k with _ | v
  · rw [parseFloatAttr, getAttr, hv, bind_error_reduce] at h
    exact Except.noConfusion h
  · exact ⟨v, rfl⟩

theorem parseU8Attr_some {m : AttrMap} {k : String} {n : ℕ}
    (h : parseU8Attr m k = .ok n) : ∃ v, m k = some v := by
  rcases hv : m k with _ | v
  · rw [parseU8Attr, getAttr, hv, bind_error_reduce] at h
    exact Except.noConfusion h
  · exact ⟨v, rfl⟩

theorem parsePositionAttr_some {m : AttrMap} {k : String} {p : ℚ × ℚ}
    (h : parsePositionAttr m k = .ok p) : ∃ v, m k = some v := by
  rcases hv : m k with _ | v
  · rw [parsePositionAttr, getAttr, hv, bind_error_reduce] at h
    exact Except.noConfusion h
  · exact ⟨v, rfl⟩

theorem getAttr_some {m : AttrMap} {k : String} {v : List Char}
    (h : getAttr m k = .ok v) : m k = some v := by
  rcases hv : m k with _ | w
  · rw [getAttr, hv] at h
    exact Except.noConfusion h
  · rw [getAttr, hv] at h
    rw [Except.ok.inj h]

/-- Inversion: a successful `Line` decode used every required attribute. -/
theorem line_ok_inversion {m : AttrMap} {s : Line} (hok : Line.from_attributes m = .ok s) :
    (∃ c, parseColorAttr m "stroke" "stroke-opacity" = .ok c) ∧
    (∃ v, getAttr m "svgnote:points" = .ok v ∧
      ∃ pts, collectTokens parseLinePointToken (splitWs v) = .ok pts) ∧
    (∃ w, parseFloatAttr m "svgnote:width" = .ok w) := by
  rw [Line.from_attributes] at hok
  rcases hc : parseColorAttr m "stroke" "stroke-opacity" with e | c
  · rw [hc, bind_error_reduce] at hok
    exact Except.noConfusion hok
  rw [hc, bind_ok_reduce] at hok
  rcases hv : getAttr m "svgnote:points" with e | v
  · rw [hv, bind_error_reduce] at hok
    exact Except.noConfusion hok
  rw [hv, bind_ok_reduce] at hok
  rcases ht : collectTokens parseLinePointToken (splitWs v) with e | pts
  · rw [ht, bind_error_reduce] at hok
    exact Except.noConfusion hok
  rw [ht, bind_ok_reduce] at hok
  rcases hw : parseFloatAttr m "svgnote:width" with e | w
  · rw [hw, bind_error_reduce] at hok
    exact Except.noConfusion hok
  exact ⟨⟨c, rfl⟩, ⟨v, rfl, pts, ht⟩, ⟨w, rfl⟩⟩

/-- Erasing a required attribute from a successfully decoding mapping makes
the `Line` decode fail with exactly that attribute's `MissingAttribute`. -/
theorem line_erase_missing {m : AttrMap} {s : Line} (name : String)
    (hok : Line.from_attributes m = .ok s) (hmem : name ∈ lineRequired) :
    Line.from_attributes (eraseAttr m name) = .error (.missingAttribute name) := by
  obtain ⟨⟨c, hc⟩, ⟨v, hv, pts, ht⟩, ⟨w, hw⟩⟩ := line_ok_inversion hok
  rw [lineRequired] at hmem
  simp only [List.mem_cons, List.not_mem_nil, or_false] at hmem
  rcases hmem with rfl | rfl | rfl
  · rfl
  · rw [Line.from_attributes,
      show parseColorAttr (eraseAttr m "svgnote:points") "stroke" "stroke-opacity" =
        parseColorAttr m "stroke" "stroke-opacity" from rfl,
      hc, bind_ok_reduce]
    rfl
  · rw [Line.from_attributes,
      show parseColorAttr (eraseAttr m "svgnote:width") "stroke" "stroke-opacity" =
        parseColorAttr m "stroke" "stroke-opacity" from rfl,
      hc, bind_ok_reduce,
      show getAttr (eraseAttr m "svgnote:width") "svgnote:points" =
        getAttr m "svgnote:points" from rfl,
      hv, bind_ok_reduce, ht, bind_ok_reduce]
    rfl

/-- A `Line` decode can never succeed while a required attribute is absent. -/
theorem line_missing_no_ok {m : AttrMap} (name : String) (hmem : name ∈ lineRequired)
    (hnone : m name = none) : ∀ s, Line.from_attributes m ≠ .ok s := by
  intro s hok
  obtain ⟨⟨c, hc⟩, ⟨v, hv, -⟩, ⟨w, hw⟩⟩ := line_ok_inversion hok
  rw [lineRequired] at hmem
  simp only [List.mem_cons, List.not_mem_nil, or_false] at hmem
  rcases hmem with rfl | rfl | rfl
  · obtain ⟨x, hx⟩ := parseColorAttr_some hc
    rw [hnone] at hx
    exact Option.noConfusion hx
  · rw [getAttr_some hv] at hnone
    exact Option.noConfusion hnone
  · obtain ⟨x, hx⟩ := parseFloatAttr_some hw
    rw [hnone] at hx
    exact Option.noConfusion hx
/-- Inversion: a successful `Ngon` decode used every required attribute. -/
theorem ngon_ok_inversion {m : AttrMap} {s : Ngon}
    (hok : Ngon.from_attributes m = .ok s) :
    (∃ p1, parsePositionAttr m "svgnote:position" = .ok p1) ∧
    (∃ w1, parseFloatAttr m "stroke-width" = .ok w1) ∧
    (∃ r1, parseFloatAttr m "svgnote:radius" = .ok r1) ∧
    (∃ n1, parseU8Attr m "svgnote:n" = .ok n1) ∧
    (∃ a1, parseFloatAttr m "svgnote:angle" = .ok a1) ∧
    (∃ f1, parseColorAttr m "fill" "fill-opacity" = .ok f1) ∧
    (∃ s1, parseColorAttr m "stroke" "stroke-opacity" = .ok s1) := by
  rw [Ngon.from_attributes] at hok
  rcases h0 : parsePositionAttr m "svgnote:position" with e | p1
  · rw [h0, bind_error_reduce] at hok
    exact Except.noConfusion hok
  rw [h0, bind_ok_reduce] at hok
  rcases h1 : parseFloatAttr m "stroke-width" with e | w1
  · rw [h1, bind_error_reduce] at hok
    exact Except.noConfusion hok
  rw [h1, bind_ok_reduce] at hok
  rcases h2 : parseFloatAttr m "svgnote:radius" with e | r1
  · rw [h2, bind_error_reduce] at hok
    exact Except.noConfusion hok
  rw [h2, bind_ok_reduce] at hok
  rcases h3 : parseU8Attr m "svgnote:n" with e | n1
  · rw [h3, bind_error_reduce] at hok
    exact Except.noConfusion hok
  rw [h3, bind_ok_reduce] at hok
  rcases h4 : parseFloatAttr m "svgnote:angle" with e | a1
  · rw [h4, bind_error_reduce] at hok
    exact Except.noConfusion hok
  rw [h4, bind_ok_reduce] at hok
  rcases h5 : parseColorAttr m "fill" "fill-opacity" with e | f1
  · rw [h5, bind_error_reduce] at hok
    exact Except.noConfusion hok
  rw [h5, bind_ok_reduce] at hok
  rcases h6 : parseColorAttr m "stroke" "stroke-opacity" with e | s1
  · rw [h6, bind_error_reduce] at hok
    exact Except.noConfusion hok
  exact ⟨⟨p1, rfl⟩, ⟨w1, rfl⟩, ⟨r1, rfl⟩, ⟨n1, rfl⟩, ⟨a1, rfl⟩, ⟨f1, rfl⟩, ⟨s1, rfl⟩⟩

/-- Erasing a required attribute from a successfully decoding mapping makes
the `Ngon` decode fail with exactly that attribute's `MissingAttribute`. -/
theorem ngon_erase_missing {m : AttrMap} {s : Ngon} (name : String)
    (hok : Ngon.from_attributes m = .ok s) (hmem : name ∈ ngonRequired) :
    Ngon.from_attributes (eraseAttr m name) = .error (.missingAttribute name) := by
  obtain ⟨⟨p1, h0⟩, ⟨w1, h1⟩, ⟨r1, h2⟩, ⟨n1, h3⟩, ⟨a1, h4⟩, ⟨f1, h5⟩, ⟨s1, h6⟩⟩ := ngon_ok_inversion hok
  rw [ngonRequired] at hmem
  simp only [List.mem_cons, List.not_mem_nil, or_false] at hmem
  rcases hmem with rfl | rfl | rfl | rfl | rfl | rfl | rfl
  · rfl
  · rw [Ngon.from_attributes,
      show parsePositionAttr (eraseAttr m "stroke-width") "svgnote:position" =
        parsePositionAttr m "svgnote:position" from rfl,
      h0, bind_ok_reduce]
    rfl
  · rw [Ngon.from_attributes,
      show parsePositionAttr (eraseAttr m "svgnote:radius") "svgnote:position" =
        parsePositionAttr m "svgnote:position" from rfl,
      h0, bind_ok_reduce,
      show parseFloatAttr (eraseAttr m "svgnote:radius") "stroke-width" =
        parseFloatAttr m "stroke-width" from rfl,
      h1, bind_ok_reduce]
    rfl
  · rw [Ngon.from_attributes,
      show parsePositionAttr (eraseAttr m "svgnote:n") "svgnote:position" =
        parsePositionAttr m "svgnote:position" from rfl,
      h0, bind_ok_reduce,
      show parseFloatAttr (eraseAttr m "svgnote:n") "stroke-width" =
        parseFloatAttr m "stroke-width" from rfl,
      h1, bind_ok_reduce,
      show parseFloatAttr (eraseAttr m "svgnote:n") "svgnote:radius" =
        parseFloatAttr m "svgnote:radius" from rfl,
      h2, bind_ok_reduce]
    rfl
  · rw [Ngon.from_attributes,
      show parsePositionAttr (eraseAttr m "svgnote:angle") "svgnote:position" =
        parsePositionAttr m "svgnote:position" from rfl,
      h0, bind_ok_reduce,
      show parseFloatAttr (eraseAttr m "svgnote:angle") "stroke-width" =
        parseFloatAttr m "stroke-width" from rfl,
      h1, bind_ok_reduce,
      show parseFloatAttr (eraseAttr m "svgnote:angle") "svgnote:radius" =
        parseFloatAttr m "svgnote:radius" from rfl,
      h2, bind_ok_reduce,
      show parseU8Attr (eraseAttr m "svgnote:angle") "svgnote:n" =
        parseU8Attr m "svgnote:n" from rfl,
      h3, bind_ok_reduce]
    rfl
  · rw [Ngon.from_attributes,
      show parsePositionAttr (eraseAttr m "fill") "svgnote:position" =
        parsePositionAttr m "svgnote:position" from rfl,
      h0, bind_ok_reduce,
      show parseFloatAttr (eraseAttr m "fill") "stroke-width" =
        parseFloatAttr m "stroke-width" from rfl,
      h1, bind_ok_reduce,
      show parseFloatAttr (eraseAttr m "fill") "svgnote:radius" =
        parseFloatAttr m "svgnote:radius" from rfl,
      h2, bind_ok_reduce,
      show parseU8Attr (eraseAttr m "fill") "svgnote:n" =
        parseU8Attr m "svgnote:n" from rfl,
      h3, bind_ok_reduce,
      show parseFloatAttr (eraseAttr m "fill") "svgnote:angle" =
        parseFloatAttr m "svgnote:angle" from rfl,
      h4, bind_ok_reduce]
    rfl
  · rw [Ngon.from_attributes,
      show parsePositionAttr (eraseAttr m "stroke") "svgnote:position" =
        parsePositionAttr m "svgnote:position" from rfl,
      h0, bind_ok_reduce,
      show parseFloatAttr (eraseAttr m "stroke") "stroke-width" =
        parseFloatAttr m "stroke-width" from rfl,
      h1, bind_ok_reduce,
      show parseFloatAttr (eraseAttr m "stroke") "svgnote:radius" =
        parseFloatAttr m "svgnote:radius" from rfl,
      h2, bind_ok_reduce,
      show parseU8Attr (eraseAttr m "stroke") "svgnote:n" =
        parseU8Attr m "svgnote:n" from rfl,
      h3, bind_ok_reduce,
      show parseFloatAttr (eraseAttr m "stroke") "svgnote:angle" =
        parseFloatAttr m "svgnote:angle" from rfl,
      h4, bind_ok_reduce,
      show parseColorAttr (eraseAttr m "stroke") "fill" "fill-opacity" =
        parseColorAttr m "fill" "fill-opacity" from rfl,
      h5, bind_ok_reduce]
    rfl

/-- A `Ngon` decode can never succeed while a required attribute is
absent. -/
theorem ngon_missing_no_ok {m : AttrMap} (name : String) (hmem : name ∈ ngonRequired)
    (hnone : m name = none) : ∀ s, Ngon.from_attributes m ≠ .ok s := by
  intro s hok
  obtain ⟨⟨p1, h0⟩, ⟨w1, h1⟩, ⟨r1, h2⟩, ⟨n1, h3⟩, ⟨a1, h4⟩, ⟨f1, h5⟩, ⟨s1, h6⟩⟩ := ngon_ok_inversion hok
  rw [ngonRequired] at hmem
  simp only [List.mem_cons, List.not_mem_nil, or_false] at hmem
  rcases hmem with rfl | rfl | rfl | rfl | rfl | rfl | rfl
  · obtain ⟨x, hx⟩ := parsePositionAttr_some h0
    rw [hnone] at hx
    exact Option.noConfusion hx
  · obtain ⟨x, hx⟩ := parseFloatAttr_some h1
    rw [hnone] at hx
    exact Option.noConfusion hx
  · obtain ⟨x, hx⟩ := parseFloatAttr_some h2
    rw [hnone] at hx
    exact Option.noConfusion hx
  · obtain ⟨x, hx⟩ := parseU8Attr_some h3
    rw [hnone] at hx
    exact Option.noConfusion hx
  · obtain ⟨x, hx⟩ := parseFloatAttr_some h4
    rw [hnone] at hx
    exact Option.noConfusion hx
  · obtain ⟨x, hx⟩ := parseColorAttr_some h5
    rw [hnone] at hx
    exact Option.noConfusion hx
  · obtain ⟨x, hx⟩ := parseColorAttr_some h6
    rw [hnone] at hx
    exact Option.noConfusion hx

/-- Inversion: a successful `Ellipse` decode used every required attribute. -/
theorem ellipse_ok_inversion {m : AttrMap} {s : Ellipse}
    (hok : Ellipse.from_attributes m = .ok s) :
    (∃ x1, parseFloatAttr m "cx" = .ok x1) ∧
    (∃ y1, parseFloatAttr m "cy" = .ok y1) ∧
    (∃ w1, parseFloatAttr m "stroke-width" = .ok w1) ∧
    (∃ r1, parseFloatAttr m "rx" = .ok r1) ∧
    (∃ f1, parseColorAttr m "fill" "fill-opacity" = .ok f1) ∧
    (∃ s1, parseColorAttr m "stroke" "stroke-opacity" = .ok s1) := by
  rw [Ellipse.from_attributes] at hok
  rcases h0 : parseFloatAttr m "cx" with e | x1
  · rw [h0, bind_error_reduce] at hok
    exact Except.noConfusion hok
  rw [h0, bind_ok_reduce] at hok
  rcases h1 : parseFloatAttr m "cy" with e | y1
  · rw [h1, bind_error_reduce] at hok
    exact Except.noConfusion hok
  rw [h1, bind_ok_reduce] at hok
  rcases h2 : parseFloatAttr m "stroke-width" with e | w1
  · rw [h2, bind_error_reduce] at hok
    exact Except.noConfusion hok
  rw [h2, bind_ok_reduce] at hok
  rcases h3 : parseFloatAttr m "rx" with e | r1
  · rw [h3, bind_error_reduce] at hok
    exact Except.noConfusion hok
  rw [h3, bind_ok_reduce] at hok
  rcases h4 : parseColorAttr m "fill" "fill-opacity" with e | f1
  · rw [h4, bind_error_reduce] at hok
    exact Except.noConfusion hok
  rw [h4, bind_ok_reduce] at hok
  rcases h5 : parseColorAttr m "stroke" "stroke-opacity" with e | s1
  · rw [h5, bind_error_reduce] at hok
    exact Except.noConfusion hok
  exact ⟨⟨x1, rfl⟩, ⟨y1, rfl⟩, ⟨w1, rfl⟩, ⟨r1, rfl⟩, ⟨f1, rfl⟩, ⟨s1, rfl⟩⟩

/-- Erasing a required attribute from a successfully decoding mapping makes
the `Ellipse` decode fail with exactly that attribute's `MissingAttribute`. -/
theorem ellipse_erase_missing {m : AttrMap} {s : Ellipse} (name : String)
    (hok : Ellipse.from_attributes m = .ok s) (hmem : name ∈ ellipseRequired) :
    Ellipse.from_attributes (eraseAttr m name) = .error (.missingAttribute name) := by
  obtain ⟨⟨x1, h0⟩, ⟨y1, h1⟩, ⟨w1, h2⟩, ⟨r1, h3⟩, ⟨f1, h4⟩, ⟨s1, h5⟩⟩ := ellipse_ok_inversion hok
  rw [ellipseRequired] at hmem
  simp only [List.mem_cons, List.not_mem_nil, or_false] at hmem
  rcases hmem with rfl | rfl | rfl | rfl | rfl | rfl
  · rfl
  · rw [Ellipse.from_attributes,
      show parseFloatAttr (eraseAttr m "cy") "cx" =
        parseFloatAttr m "cx" from rfl,
      h0, bind_ok_reduce]
    rfl
  · rw [Ellipse.from_attributes,
      show parseFloatAttr (eraseAttr m "stroke-width") "cx" =
        parseFloatAttr m "cx" from rfl,
      h0, bind_ok_reduce,
      show parseFloatAttr (eraseAttr m "stroke-width") "cy" =
        parseFloatAttr m "cy" from rfl,
      h1, bind_ok_reduce]
    rfl
  · rw [Ellipse.from_attributes,
      show parseFloatAttr (eraseAttr m "rx") "cx" =
        parseFloatAttr m "cx" from rfl,
      h0, bind_ok_reduce,
      show parseFloatAttr (eraseAttr m "rx") "cy" =
        parseFloatAttr m "cy" from rfl,
      h1, bind_ok_reduce,
      show parseFloatAttr (eraseAttr m "rx") "stroke-width" =
        parseFloatAttr m "stroke-width" from rfl,
      h2, bind_ok_reduce]
    rfl
  · rw [Ellipse.from_attributes,
      show parseFloatAttr (eraseAttr m "fill") "cx" =
        parseFloatAttr m "cx" from rfl,
      h0, bind_ok_reduce,
      show parseFloatAttr (eraseAttr m "fill") "cy" =
        parseFloatAttr m "cy" from rfl,
      h1, bind_ok_reduce,
      show parseFloatAttr (eraseAttr m "fill") "stroke-width" =
        parseFloatAttr m "stroke-width" from rfl,
      h2, bind_ok_reduce,
      show parseFloatAttr (eraseAttr m "fill") "rx" =
        parseFloatAttr m "rx" from rfl,
      h3, bind_ok_reduce]
    rfl
  · rw [Ellipse.from_attributes,
      show parseFloatAttr (eraseAttr m "stroke") "cx" =
        parseFloatAttr m "cx" from rfl,
      h0, bind_ok_reduce,
      show parseFloatAttr (eraseAttr m "stroke") "cy" =
        parseFloatAttr m "cy" from rfl,
      h1, bind_ok_reduce,
      show parseFloatAttr (eraseAttr m "stroke") "stroke-width" =
        parseFloatAttr m "stroke-width" from rfl,
      h2, bind_ok_reduce,
      show parseFloatAttr (eraseAttr m "stroke") "rx" =
        parseFloatAttr m "rx" from rfl,
      h3, bind_ok_reduce,
      show parseColorAttr (eraseAttr m "stroke") "fill" "fill-opacity" =
        parseColorAttr m "fill" "fill-opacity" from rfl,
      h4, bind_ok_reduce]
    rfl

/-- A `Ellipse` decode can never succeed while a required attribute is
absent. -/
theorem ellipse_missing_no_ok {m : AttrMap} (name : String) (hmem : name ∈ ellipseRequired)
    (hnone : m name = none) : ∀ s, Ellipse.from_attributes m ≠ .ok s := by
  intro s hok
  obtain ⟨⟨x1, h0⟩, ⟨y1, h1⟩, ⟨w1, h2⟩, ⟨r1, h3⟩, ⟨f1, h4⟩, ⟨s1, h5⟩⟩ := ellipse_ok_inversion hok
  rw [ellipseRequired] at hmem
  simp only [List.mem_cons, List.not_mem_nil, or_false] at hmem
  rcases hmem with rfl | rfl | rfl | rfl | rfl | rfl
  · obtain ⟨x, hx⟩ := parseFloatAttr_some h0
    rw [hnone] at hx
    exact Option.noConfusion hx
  · obtain ⟨x, hx⟩ := parseFloatAttr_some h1
    rw [hnone] at hx
    exact Option.noConfusion hx
  · obtain ⟨x, hx⟩ := parseFloatAttr_some h2
    rw [hnone] at hx
    exact Option.noConfusion hx
  · obtain ⟨x, hx⟩ := parseFloatAttr_some h3
    rw [hnone] at hx
    exact Option.noConfusion hx
  · obtain ⟨x, hx⟩ := parseColorAttr_some h4
    rw [hnone] at hx
    exact Option.noConfusion hx
  · obtain ⟨x, hx⟩ := parseColorAttr_some h5
    rw [hnone] at hx
    exact Option.noConfusion hx

/-- Inversion: a successful `Polyline` decode used every required
attribute. -/
theorem polyline_ok_inversion {m : AttrMap} {s : Polyline}
    (hok : Polyline.from_attributes m = .ok s) :
    (∃ c, parseColorAttr m "stroke" "stroke-opacity" = .ok c) ∧
    (∃ c, parseColorAttr m "fill" "fill-opacity" = .ok c) ∧
    (∃ v, getAttr m "points" = .ok v ∧
      ∃ pts, collectTokens parsePolylinePointToken (splitWs v) = .ok pts) ∧
    (∃ w, parseFloatAttr m "stroke-width" = .ok w) := by
  rw [Polyline.from_attributes] at hok
  rcases h0 : parseColorAttr m "stroke" "stroke-opacity" with e | c0
  · rw [h0, bind_error_reduce] at hok
    exact Except.noConfusion hok
  rw [h0, bind_ok_reduce] at hok
  rcases h1 : parseColorAttr m "fill" "fill-opacity" with e | c1
  · rw [h1, bind_error_reduce] at hok
    exact Except.noConfusion hok
  rw [h1, bind_ok_reduce] at hok
  rcases h2 : getAttr m "points" with e | v
  · rw [h2, bind_error_reduce] at hok
    exact Except.noConfusion hok
  rw [h2, bind_ok_reduce] at hok
  rcases h3 : collectTokens parsePolylinePointToken (splitWs v) with e | pts
  · rw [h3, bind_error_reduce] at hok
    exact Except.noConfusion hok
  rw [h3, bind_ok_reduce] at hok
  rcases h4 : parseFloatAttr m "stroke-width" with e | w
  · rw [h4, bind_error_reduce] at hok
    exact Except.noConfusion hok
  exact ⟨⟨c0, rfl⟩, ⟨c1, rfl⟩, ⟨v, rfl, pts, h3⟩, ⟨w, rfl⟩⟩

/-- Erasing a required attribute from a successfully decoding mapping makes
the `Polyline` decode fail with exactly that attribute's
`MissingAttribute`. -/
theorem polyline_erase_missing {m : AttrMap} {s : Polyline} (name : String)
    (hok : Polyline.from_attributes m = .ok s) (hmem : name ∈ polylineRequired) :
    Polyline.from_attributes (eraseAttr m name) = .error (.missingAttribute name) := by
  obtain ⟨⟨c0, h0⟩, ⟨c1, h1⟩, ⟨v, h2, pts, h3⟩, ⟨w, h4⟩⟩ := polyline_ok_inversion hok
  rw [polylineRequired] at hmem
  simp only [List.mem_cons, List.not_mem_nil, or_false] at hmem
  rcases hmem with rfl | rfl | rfl | rfl
  · rfl
  · rw [Polyline.from_attributes,
      show parseColorAttr (eraseAttr m "fill") "stroke" "stroke-opacity" =
        parseColorAttr m "stroke" "stroke-opacity" from rfl,
      h0, bind_ok_reduce]
    rfl
  · rw [Polyline.from_attributes,
      show parseColorAttr (eraseAttr m "points") "stroke" "stroke-opacity" =
        parseColorAttr m "stroke" "stroke-opacity" from rfl,
      h0, bind_ok_reduce,
      show parseColorAttr (eraseAttr m "points") "fill" "fill-opacity" =
        parseColorAttr m "fill" "fill-opacity" from rfl,
      h1, bind_ok_reduce]
    rfl
  · rw [Polyline.from_attributes,
      show parseColorAttr (eraseAttr m "stroke-width") "stroke" "stroke-opacity" =
        parseColorAttr m "stroke" "stroke-opacity" from rfl,
      h0, bind_ok_reduce,
      show parseColorAttr (eraseAttr m "stroke-width") "fill" "fill-opacity" =
        parseColorAttr m "fill" "fill-opacity" from rfl,
      h1, bind_ok_reduce,
      show getAttr (eraseAttr m "stroke-width") "points" = getAttr m "points" from rfl,
      h2, bind_ok_reduce, h3, bind_ok_reduce]
    rfl

/-- A `Polyline` decode can never succeed while a required attribute is
absent. -/
theorem polyline_missing_no_ok {m : AttrMap} (name : String) (hmem : name ∈ polylineRequired)
    (hnone : m name = none) : ∀ s, Polyline.from_attributes m ≠ .ok s := by
  intro s hok
  obtain ⟨⟨c0, h0⟩, ⟨c1, h1⟩, ⟨v, h2, -⟩, ⟨w, h4⟩⟩ := polyline_ok_inversion hok
  rw [polylineRequired] at hmem
  simp only [List.mem_cons, List.not_mem_nil, or_false] at hmem
  rcases hmem with rfl | rfl | rfl | rfl
  · obtain ⟨x, hx⟩ := parseColorAttr_some h0
    rw [hnone] at hx
    exact Option.noConfusion hx
  · obtain ⟨x, hx⟩ := parseColorAttr_some h1
    rw [hnone] at hx
    exact Option.noConfusion hx
  · rw [getAttr_some h2] at hnone
    exact Option.noConfusion hnone
  · obtain ⟨x, hx⟩ := parseFloatAttr_some h4
    rw [hnone] at hx
    exact Option.noConfusion hx

/-- C6: for every shape variant, (i) erasing any one required attribute from
a mapping that decodes successfully makes the decode fail with
`MissingAttribute` carrying exactly that attribute's name, and (ii) no
decode can produce a shape while any required attribute is absent. -/
theorem missing_attribute_spec :
    ((∀ (m : AttrMap) (s : Line) (name : String), Line.from_attributes m = .ok s →
        name ∈ lineRequired →
        Line.from_attributes (eraseAttr m name) = .error (.missingAttribute name)) ∧
      ∀ (m : AttrMap) (name : String), name ∈ lineRequired → m name = none →
        ∀ s, Line.from_attributes m ≠ .ok s) ∧
    ((∀ (m : AttrMap) (s : Ngon) (name : String), Ngon.from_attributes m = .ok s →
        name ∈ ngonRequired →
        Ngon.from_attributes (eraseAttr m name) = .error (.missingAttribute name)) ∧
      ∀ (m : AttrMap) (name : String), name ∈ ngonRequired → m name = none →
        ∀ s, Ngon.from_attributes m ≠ .ok s) ∧
    ((∀ (m : AttrMap) (s : Ellipse) (name : String), Ellipse.from_attributes m = .ok s →
        name ∈ ellipseRequired →
        Ellipse.from_attributes (eraseAttr m name) = .error (.missingAttribute name)) ∧
      ∀ (m : AttrMap) (name : String), name ∈ ellipseRequired → m name = none →
        ∀ s, Ellipse.from_attributes m ≠ .ok s) ∧
    ((∀ (m : AttrMap) (s : Polyline) (name : String), Polyline.from_attributes m = .ok s →
        name ∈ polylineRequired →
        Polyline.from_attributes (eraseAttr m name) = .error (.missingAttribute name)) ∧
      ∀ (m : AttrMap) (name : String), name ∈ polylineRequired → m name = none →
        ∀ s, Polyline.from_attributes m ≠ .ok s) :=
  ⟨⟨fun _ _ name hok hmem => line_erase_missing name hok hmem,
      fun _ name hmem hnone => line_missing_no_ok name hmem hnone⟩,
    ⟨fun _ _ name hok hmem => ngon_erase_missing name hok hmem,
      fun _ name hmem hnone => ngon_missing_no_ok name hmem hnone⟩,
    ⟨fun _ _ name hok hmem => ellipse_erase_missing name hok hmem,
      fun _ name hmem hnone => ellipse_missing_no_ok name hmem hnone⟩,
    ⟨fun _ _ name hok hmem => polyline_erase_missing name hok hmem,
      fun _ name hmem hnone => polyline_missing_no_ok name hmem hnone⟩⟩

/-- C6 witness. -/
theorem missing_attribute_spec_witness :
    Line.from_attributes (Line.toAttrs [] ⟨⟨0, 0, 0, 255⟩, 1, []⟩) =
      .ok ⟨⟨0, 0, 0, 255⟩, 1, []⟩ ∧
    "svgnote:width" ∈ lineRequired ∧
    Line.from_attributes (eraseAttr (Line.toAttrs [] ⟨⟨0, 0, 0, 255⟩, 1, []⟩)
      "svgnote:width") = .error (.missingAttribute "svgnote:width") :=
  ⟨line_decode_encode [] _ (by decide), by decide,
    missing_attribute_spec.1.1 _ _ _ (line_decode_encode [] _ (by decide)) (by decide)⟩

/-! ## Invalid point tokens (C7) -/

/-- The spec's validity condition for a `Line` point token: exactly three
comma-separated fields, each parsing as a float.  `badLineToken` is its
negation. -/
def badLineToken (t : List Char) : Prop :=
  ¬((splitSep ',' t).length = 3 ∧ ∀ f ∈ splitSep ',' t, (parseFloatQ f).isSome = true)

/-- The same for a `Polyline` point token (two fields). -/
def badPolyToken (t : List Char) : Prop :=
  ¬((splitSep ',' t).length = 2 ∧ ∀ f ∈ splitSep ',' t, (parseFloatQ f).isSome = true)

instance (t : List Char) : Decidable (badLineToken t) := by
  unfold badLineToken; infer_instance

instance (t : List Char) : Decidable (badPolyToken t) := by
  unfold badPolyToken; infer_instance

theorem badLineToken_iff (t : List Char) :
    badLineToken t ↔ parseLinePointToken t = .error (.invalidPoint t) := by
  rw [badLineToken, parseLinePointToken]
  by_cases hlen : (splitSep ',' t).length = 3
  · rw [if_pos hlen]
    obtain ⟨a, b, c, habc⟩ := List.length_eq_three.mp hlen
    rw [habc]
    simp only [List.getD_cons_zero, List.getD_cons_succ]
    rcases ha : parseFloatQ a with _ | x <;> rcases hb : parseFloatQ b with _ | y <;>
      rcases hc : parseFloatQ c with _ | z <;>
      simp [hlen, habc, ha, hb, hc]
  · rw [if_neg hlen]
    simp [hlen]

theorem badPolyToken_iff (t : List Char) :
    badPolyToken t ↔ parsePolylinePointToken t = .error (.invalidPoint t) := by
  rw [badPolyToken, parsePolylinePointToken]
  by_cases hlen : (splitSep ',' t).length = 2
  · rw [if_pos hlen]
    obtain ⟨a, b, hab⟩ := List.length_eq_two.mp hlen
    rw [hab]
    simp only [List.getD_cons_zero, List.getD_cons_succ]
    rcases ha : parseFloatQ a with _ | x <;> rcases hb : parseFloatQ b with _ | y <;>
      simp [hlen, hab, ha, hb]
  · rw [if_neg hlen]
    simp [hlen]

theorem collectTokens_line_bad (ts : List (List Char)) (hbad : ∃ t ∈ ts, badLineToken t) :
    ∃ t ∈ ts, badLineToken t ∧
      collectTokens parseLinePointToken ts = .error (.invalidPoint t) := by
  induction ts with
  | nil => obtain ⟨t, ht, -⟩ := hbad; exact absurd ht (List.not_mem_nil t)
  | cons t ts ih =>
    by_cases hb : badLineToken t
    · exact ⟨t, List.mem_cons_self t ts, hb, by
        rw [collectTokens, (badLineToken_iff t).mp hb, bind_error_reduce]⟩
    · have hokt : parseLinePointToken t ≠ .error (.invalidPoint t) :=
        fun hcontra => hb ((badLineToken_iff t).mpr hcontra)
      have hexok : ∃ p, parseLinePointToken t = .ok p := by
        rcases hpt : parseLinePointToken t with e | p
        · exfalso
          apply hokt
          rw [hpt]
          congr 1
          rw [parseLinePointToken] at hpt
          by_cases hlen : (splitSep ',' t).length = 3
          · rw [if_pos hlen] at hpt
            rcases h1 : parseFloatQ ((splitSep ',' t).getD 0 []) with _ | x <;>
              rcases h2 : parseFloatQ ((splitSep ',' t).getD 1 []) with _ | y <;>
                rcases h3 : parseFloatQ ((splitSep ',' t).getD 2 []) with _ | z <;>
                  rw [h1, h2, h3] at hpt <;> first
                    | (exact (Except.error.inj hpt).symm)
                    | exact Except.noConfusion hpt
          · rw [if_neg hlen] at hpt
            exact (Except.error.inj hpt).symm
        · exact ⟨p, rfl⟩
      obtain ⟨p, hp⟩ := hexok
      have hbad' : ∃ t' ∈ ts, badLineToken t' := by
        obtain ⟨t', ht', hb'⟩ := hbad
        rcases List.mem_cons.mp ht' with rfl | hmem
        · exact absurd hb' hb
        · exact ⟨t', hmem, hb'⟩
      obtain ⟨t', ht', hb', hcol⟩ := ih hbad'
      exact ⟨t', List.mem_cons_of_mem t ht', hb', by
        rw [collectTokens, hp, bind_ok_reduce, hcol, bind_error_reduce]⟩

theorem collectTokens_poly_bad (ts : List (List Char)) (hbad : ∃ t ∈ ts, badPolyToken t) :
    ∃ t ∈ ts, badPolyToken t ∧
      collectTokens parsePolylinePointToken ts = .error (.invalidPoint t) := by
  induction ts with
  | nil => obtain ⟨t, ht, -⟩ := hbad; exact absurd ht (List.not_mem_nil t)
  | cons t ts ih =>
    by_cases hb : badPolyToken t
    · exact ⟨t, List.mem_cons_self t ts, hb, by
        rw [collectTokens, (badPolyToken_iff t).mp hb, bind_error_reduce]⟩
    · have hokt : parsePolylinePointToken t ≠ .error (.invalidPoint t) :=
        fun hcontra => hb ((badPolyToken_iff t).mpr hcontra)
      have hexok : ∃ p, parsePolylinePointToken t = .ok p := by
        rcases hpt : parsePolylinePointToken t with e | p
        · exfalso
          apply hokt
          rw [hpt]
          congr 1
          rw [parsePolylinePointToken] at hpt
          by_cases hlen : (splitSep ',' t).length = 2
          · rw [if_pos hlen] at hpt
            rcases h1 : parseFloatQ ((splitSep ',' t).getD 0 []) with _ | x <;>
              rcases h2 : parseFloatQ ((splitSep ',' t).getD 1 []) with _ | y <;>
                rw [h1, h2] at hpt <;> first
                  | (exact (Except.error.inj hpt).symm)
                  | exact Except.noConfusion hpt
          · rw [if_neg hlen] at hpt
            exact (Except.error.inj hpt).symm
        · exact ⟨p, rfl⟩
      obtain ⟨p, hp⟩ := hexok
      have hbad' : ∃ t' ∈ ts, badPolyToken t' := by
        obtain ⟨t', ht', hb'⟩ := hbad
        rcases List.mem_cons.mp ht' with rfl | hmem
        · exact absurd hb' hb
        · exact ⟨t', hmem, hb'⟩
      obtain ⟨t', ht', hb', hcol⟩ := ih hbad'
      exact ⟨t', List.mem_cons_of_mem t ht', hb', by
        rw [collectTokens, hp, bind_ok_reduce, hcol, bind_error_reduce]⟩

theorem parseColorAttr_ok_of {m : AttrMap} {k o : String} {cs : List Char} {c : Color}
    (hk : m k = some cs) (hc : Color.fromStr cs = .ok c) :
    parseColorAttr m k o = .ok (applyOpacity m o c) := by
  rw [parseColorAttr, getAttr, hk]
  show (match Color.fromStr cs with
    | Except.ok c' => Except.ok (applyOpacity m o c')
    | Except.error _ => Except.error (DocumentError.invalidAttribute k cs)) =
    Except.ok (applyOpacity m o c)
  rw [hc]

/-- C7: whenever the shape decode reaches a point-list attribute (the
attributes checked before it are present and valid), any token with the
wrong comma-separated field count (3 for `Line`, 2 for `Polyline`) or with a
field that fails float parsing makes the whole decode fail with
`InvalidPoint` carrying exactly the original text of a bad token. -/
theorem invalid_point_spec :
    (∀ (m : AttrMap) (cs : List Char) (c : Color) (s : List Char),
      m "stroke" = some cs → Color.fromStr cs = .ok c → m "svgnote:points" = some s →
      ∀ t ∈ splitWs s, badLineToken t →
      ∃ t' ∈ splitWs s, badLineToken t' ∧
        Line.from_attributes m = .error (.invalidPoint t')) ∧
    (∀ (m : AttrMap) (cs cf : List Char) (c d : Color) (s : List Char),
      m "stroke" = some cs → Color.fromStr cs = .ok c →
      m "fill" = some cf → Color.fromStr cf = .ok d → m "points" = some s →
      ∀ t ∈ splitWs s, badPolyToken t →
      ∃ t' ∈ splitWs s, badPolyToken t' ∧
        Polyline.from_attributes m = .error (.invalidPoint t')) := by
  constructor
  · intro m cs c s hstroke hcs hpoints t ht hbad
    obtain ⟨t', ht', hb', hcol⟩ := collectTokens_line_bad (splitWs s) ⟨t, ht, hbad⟩
    refine ⟨t', ht', hb', ?_⟩
    rw [Line.from_attributes, parseColorAttr_ok_of hstroke hcs, bind_ok_reduce,
      getAttr, hpoints, bind_ok_reduce, hcol, bind_error_reduce]
  · intro m cs cf c d s hstroke hcs hfill hcf hpoints t ht hbad
    obtain ⟨t', ht', hb', hcol⟩ := collectTokens_poly_bad (splitWs s) ⟨t, ht, hbad⟩
    refine ⟨t', ht', hb', ?_⟩
    rw [Polyline.from_attributes, parseColorAttr_ok_of hstroke hcs, bind_ok_reduce,
      parseColorAttr_ok_of hfill hcf, bind_ok_reduce,
      getAttr, hpoints, bind_ok_reduce, hcol, bind_error_reduce]

/-- C7 witness: a mapping whose point list contains the spec's example token
`"1,2"` (two fields where three are required). -/
theorem invalid_point_spec_witness :
    "1,2".toList ∈ splitWs "1,2 3,4,5".toList ∧ badLineToken "1,2".toList ∧
    (∃ t' ∈ splitWs "1,2 3,4,5".toList, badLineToken t' ∧
      Line.from_attributes (fun k =>
        if k = "stroke" then some "#000".toList
        else if k = "svgnote:points" then some "1,2 3,4,5".toList
        else none) = .error (.invalidPoint t')) :=
  ⟨by decide, by decide,
    invalid_point_spec.1 _ "#000".toList ⟨0, 0, 0, 255⟩ "1,2 3,4,5".toList rfl (by decide)
      rfl "1,2".toList (by decide) (by decide)⟩


/-! ## Identifier assignment (C9) -/

theorem from_event_id {e : Event} {i : ℤ} {el : Element}
    (h : Element.from_event e i = .ok el) : el.idOf = i := by
  rw [Element.from_event.eq_def] at h
  split at h
  next attrs =>
    rcases htool : getAttr attrs "svgnote:tool" with e' | tool
    · rw [htool, bind_error_reduce] at h
      exact Except.noConfusion h
    · rw [htool, bind_ok_reduce] at h
      by_cases htl : tool = "pen".toList
      · rw [if_pos htl] at h
        rcases hla : Line.from_attributes attrs with e' | l
        · rw [hla, bind_error_reduce] at h
          exact Except.noConfusion h
        · rw [hla, bind_ok_reduce] at h
          have hel := Except.ok.inj h
          subst hel
          rfl
      · rw [if_neg htl] at h
        exact Except.noConfusion h
  next attrs =>
    rcases htool : getAttr attrs "svgnote:tool" with e' | tool
    · rw [htool, bind_error_reduce] at h
      exact Except.noConfusion h
    · rw [htool, bind_ok_reduce] at h
      by_cases htl : tool = "ngon".toList
      · rw [if_pos htl] at h
        rcases hla : Ngon.from_attributes attrs with e' | g
        · rw [hla, bind_error_reduce] at h
          exact Except.noConfusion h
        · rw [hla, bind_ok_reduce] at h
          have hel := Except.ok.inj h
          subst hel
          rfl
      · rw [if_neg htl] at h
        exact Except.noConfusion h
  next attrs =>
    rcases hla : Polyline.from_attributes attrs with e' | p
    · rw [hla, bind_error_reduce] at h
      exact Except.noConfusion h
    · rw [hla, bind_ok_reduce] at h
      have hel := Except.ok.inj h
      subst hel
      rfl
  next attrs =>
    rcases hla : Ellipse.from_attributes attrs with e' | el'
    · rw [hla, bind_error_reduce] at h
      exact Except.noConfusion h
    · rw [hla, bind_ok_reduce] at h
      have hel := Except.ok.inj h
      subst hel
      rfl
  next =>
    exact Except.noConfusion h
  next =>
    exact Except.noConfusion h

theorem documentFromEventsAux_ids (events : List Event) :
    ∀ (id : ℤ) (elems : List Element), documentFromEventsAux id events = .ok elems →
      (elems.map Element.idOf).Sublist
        ((List.range events.length).map fun (i : ℕ) => (i : ℤ) + (id + 1)) := by
  induction events with
  | nil =>
    intro id elems hok
    rw [documentFromEventsAux] at hok
    rw [← Except.ok.inj hok]
    simp
  | cons e es ih =>
    intro id elems hok
    rw [documentFromEventsAux] at hok
    have htail : ((List.range (e :: es).length).map fun (i : ℕ) => (i : ℤ) + (id + 1)) =
        (id + 1) :: ((List.range es.length).map fun (i : ℕ) => (i : ℤ) + (id + 1 + 1)) := by
      rw [List.length_cons, List.range_succ_eq_map, List.map_cons, List.map_map]
      congr 1
      · norm_num
      · refine List.map_congr_left fun i hi => ?_
        show ((Nat.succ i : ℕ) : ℤ) + (id + 1) = (i : ℤ) + (id + 1 + 1)
        push_cast
        ring
    rw [htail]
    rcases hev : Element.from_event e (id + 1) with err | el
    · rcases err with ⟨n, v⟩ | n | v | _ <;> rw [hev] at hok <;>
        first
          | exact Except.noConfusion hok
          | exact (ih (id + 1) elems hok).cons (id + 1)
    · rw [hev] at hok
      have hok2 : (do
          let rest ← documentFromEventsAux (id + 1) es
          pure (el :: rest) : Except DocumentError (List Element)) = Except.ok elems := hok
      rcases hrest : documentFromEventsAux (id + 1) es with e' | rest
      · rw [hrest, bind_error_reduce] at hok2
        exact Except.noConfusion hok2
      · rw [hrest, bind_ok_reduce] at hok2
        have hok3 : Except.ok (el :: rest) = Except.ok elems := hok2
        rw [← Except.ok.inj hok3, List.map_cons, from_event_id hev]
        exact (ih (id + 1) rest hrest).cons₂ (id + 1)

/-- C9: during document decode the identifiers of the produced elements are
drawn, in order, from the sequence 2, 3, 4, … indexed by event position —
hence they are strictly increasing and at least 2 — and the identifier
handed to the first event is 2 (the counter is incremented before its first
use, so counting starts at 2, not at the initial value 1). -/
theorem id_assignment_spec :
    (∀ (events : List Event) (elems : List Element),
      Document.from_events events = .ok elems →
      (elems.map Element.idOf).Sublist
        ((List.range events.length).map fun (i : ℕ) => (i : ℤ) + 2) ∧
      (elems.map Element.idOf).Pairwise (· < ·) ∧
      ∀ el ∈ elems, 2 ≤ el.idOf) ∧
    (∀ (e : Event) (el : Element), Element.from_event e 2 = .ok el →
      Document.from_events [e] = .ok [el]) := by
  constructor
  · intro events elems hok
    have hsub := documentFromEventsAux_ids events 1 elems hok
    norm_num at hsub
    refine ⟨hsub, ?_, ?_⟩
    · refine List.Pairwise.sublist hsub ?_
      rw [List.pairwise_map]
      refine List.Pairwise.imp ?_ (List.pairwise_lt_range events.length)
      intro a b hab
      omega
    · intro el hel
      have hmem : el.idOf ∈ (List.range events.length).map fun (i : ℕ) => (i : ℤ) + 2 :=
        hsub.mem (List.mem_map_of_mem Element.idOf hel)
      obtain ⟨i, -, hi⟩ := List.mem_map.mp hmem
      omega
  · intro e el hev
    show documentFromEventsAux 1 [e] = Except.ok [el]
    rw [documentFromEventsAux, show (1 : ℤ) + 1 = 2 by norm_num, hev]
    rfl

theorem id_assignment_spec_witness :
    Document.from_events
        [Element.renderEvent (fun _ => []) (fun _ => [])
          (Element.ellipse ⟨(1, 2), ⟨1, 2, 3, 255⟩, ⟨4, 5, 6, 255⟩, 7, 8⟩ 2)] =
      .ok [Element.ellipse ⟨(1, 2), ⟨1, 2, 3, 255⟩, ⟨4, 5, 6, 255⟩, 7, 8⟩ 2] :=
  id_assignment_spec.2 _ _
    (element_decode_encode (fun _ => []) (fun _ => [])
      (Element.ellipse ⟨(1, 2), ⟨1, 2, 3, 255⟩, ⟨4, 5, 6, 255⟩, 7, 8⟩ 2) 2 (by decide))

/-! ## `Ngon::points` (C8, C10)

The vertex derivation is numerical; we model the `f32` arithmetic of
`Ngon::points` with exact real arithmetic (the claims are about the
geometry of the algorithm, not about rounding). -/

/-- `Ngon::points` from `src/src/elements/mod.rs` over ℝ:
`angle = 2π/n`, `offset_angle = π/2 + angle/2`, and for `i in 0..n` the
vertex is `position + radius · (cos(i·angle + offset_angle + self.angle),
sin(i·angle + offset_angle + self.angle))`. -/
noncomputable def Ngon.pointsReal (g : Ngon) : List (ℝ × ℝ) :=
  let angle : ℝ := 2 * Real.pi / (g.n : ℝ)
  let offset_angle : ℝ := Real.pi / 2 + angle / 2
  (List.range g.n).map fun (i : ℕ) =>
    ((g.position.1 : ℝ) + (g.radius : ℝ) * Real.cos ((i : ℝ) * angle + offset_angle + (g.angle : ℝ)),
     (g.position.2 : ℝ) + (g.radius : ℝ) * Real.sin ((i : ℝ) * angle + offset_angle + (g.angle : ℝ)))

theorem dist_circle_abs (x y r θ : ℝ) :
    Real.sqrt ((x + r * Real.cos θ - x) ^ 2 + (y + r * Real.sin θ - y) ^ 2) = |r| := by
  have key : (x + r * Real.cos θ - x) ^ 2 + (y + r * Real.sin θ - y) ^ 2 = r ^ 2 := by
    linear_combination r ^ 2 * Real.sin_sq_add_cos_sq θ
  rw [key, Real.sqrt_sq_eq_abs]

theorem ngon_dist_abs (g : Ngon) :
    ∀ p ∈ Ngon.pointsReal g,
      Real.sqrt ((p.1 - (g.position.1 : ℝ)) ^ 2 + (p.2 - (g.position.2 : ℝ)) ^ 2) =
        |(g.radius : ℝ)| := by
  intro p hp
  simp only [Ngon.pointsReal, List.mem_map, List.mem_range] at hp
  obtain ⟨i, hi, rfl⟩ := hp
  exact dist_circle_abs _ _ _ _

/-- C8 (amended: the distance property additionally needs `0 ≤ radius`;
with a negative radius the distance is `|radius|`): for an `Ngon` with
`n ≥ 3` and `radius ≥ 0` the derived vertex list has length `n`, vertex
`i` is `position + radius · (cos(i·(2π/n) + π/2 + (2π/n)/2 + angle),
sin(…))`, every vertex lies at Euclidean distance `radius` from
`position`, and the angular arguments of successive vertices differ by
exactly `2π/n`. -/
theorem ngon_points_spec (g : Ngon) (h3 : 3 ≤ g.n) (hr : 0 ≤ g.radius) :
    (Ngon.pointsReal g).length = g.n ∧
    (∀ (i : ℕ) (hi : i < (Ngon.pointsReal g).length),
      (Ngon.pointsReal g)[i] =
        ((g.position.1 : ℝ) + (g.radius : ℝ) *
            Real.cos ((i : ℝ) * (2 * Real.pi / (g.n : ℝ)) +
              (Real.pi / 2 + 2 * Real.pi / (g.n : ℝ) / 2) + (g.angle : ℝ)),
         (g.position.2 : ℝ) + (g.radius : ℝ) *
            Real.sin ((i : ℝ) * (2 * Real.pi / (g.n : ℝ)) +
              (Real.pi / 2 + 2 * Real.pi / (g.n : ℝ) / 2) + (g.angle : ℝ)))) ∧
    (∀ p ∈ Ngon.pointsReal g,
      Real.sqrt ((p.1 - (g.position.1 : ℝ)) ^ 2 + (p.2 - (g.position.2 : ℝ)) ^ 2) =
        (g.radius : ℝ)) ∧
    (∀ i : ℕ, i + 1 < g.n →
      (((i + 1 : ℕ) : ℝ) * (2 * Real.pi / (g.n : ℝ)) +
          (Real.pi / 2 + 2 * Real.pi / (g.n : ℝ) / 2) + (g.angle : ℝ)) -
        ((i : ℝ) * (2 * Real.pi / (g.n : ℝ)) +
          (Real.pi / 2 + 2 * Real.pi / (g.n : ℝ) / 2) + (g.angle : ℝ)) =
        2 * Real.pi / (g.n : ℝ)) := by
  have hr' : (0 : ℝ) ≤ (g.radius : ℝ) := by exact_mod_cast hr
  refine ⟨by simp [Ngon.pointsReal], ?_, ?_, ?_⟩
  · intro i hi
    simp only [Ngon.pointsReal, List.getElem_map, List.getElem_range]
  · intro p hp
    rw [ngon_dist_abs g p hp, abs_of_nonneg hr']
  · intro i hi
    push_cast
    ring

theorem ngon_points_spec_witness :
    3 ≤ (⟨(0, 0), ⟨0, 0, 0, 255⟩, ⟨0, 0, 0, 255⟩, 1, 0, 3, 1⟩ : Ngon).n ∧
    (0 : ℚ) ≤ (⟨(0, 0), ⟨0, 0, 0, 255⟩, ⟨0, 0, 0, 255⟩, 1, 0, 3, 1⟩ : Ngon).radius ∧
    (Ngon.pointsReal ⟨(0, 0), ⟨0, 0, 0, 255⟩, ⟨0, 0, 0, 255⟩, 1, 0, 3, 1⟩).length = 3 :=
  ⟨by decide, by decide,
    (ngon_points_spec ⟨(0, 0), ⟨0, 0, 0, 255⟩, ⟨0, 0, 0, 255⟩, 1, 0, 3, 1⟩
      (by decide) (by decide)).1⟩

/-- A concrete `Ngon` with a negative radius, decodable from a file
(`svgnote:radius="-1"` parses). -/
def ngonNeg : Ngon := ⟨(0, 0), ⟨0, 0, 0, 255⟩, ⟨0, 0, 0, 255⟩, 1, 0, 3, -1⟩

theorem ngon_points_counterexample :
    ∃ p ∈ Ngon.pointsReal ngonNeg,
      Real.sqrt ((p.1 - (ngonNeg.position.1 : ℝ)) ^ 2 +
          (p.2 - (ngonNeg.position.2 : ℝ)) ^ 2) ≠
        (ngonNeg.radius : ℝ) := by
  have hlen : (Ngon.pointsReal ngonNeg).length = 3 := by simp [Ngon.pointsReal, ngonNeg]
  obtain ⟨p, hp⟩ := List.exists_mem_of_ne_nil (Ngon.pointsReal ngonNeg) (by
    intro hnil
    rw [hnil] at hlen
    exact absurd hlen (by norm_num))
  refine ⟨p, hp, ?_⟩
  rw [ngon_dist_abs ngonNeg p hp]
  show |((-1 : ℚ) : ℝ)| ≠ ((-1 : ℚ) : ℝ)
  push_cast
  norm_num

/-- C10: with `n = 0` the vertex derivation is total and produces the
empty list: the guiding division `2π/0` is (in the real model, as in IEEE
`f32`) a total operation whose result is never consumed, and the loop body
never runs, so nothing undefined is observable at the interface. -/
theorem ngon_zero_points (g : Ngon) (h : g.n = 0) : Ngon.pointsReal g = [] := by
  simp [Ngon.pointsReal, h]

theorem ngon_zero_points_witness :
    (⟨(0, 0), ⟨0, 0, 0, 255⟩, ⟨0, 0, 0, 255⟩, 1, 0, 0, 1⟩ : Ngon).n = 0 ∧
    Ngon.pointsReal ⟨(0, 0), ⟨0, 0, 0, 255⟩, ⟨0, 0, 0, 255⟩, 1, 0, 0, 1⟩ = [] :=
  ⟨by decide,
    ngon_zero_points ⟨(0, 0), ⟨0, 0, 0, 255⟩, ⟨0, 0, 0, 255⟩, 1, 0, 0, 1⟩ rfl⟩
